import Mathlib

/-!
# oas-mcp: operation catalog, tool generation, dispatch and request binding

A shallow embedding of `internal/parser/parser.go`, `internal/server/server.go` and
`internal/requester/requester.go`, with the configuration types of
`internal/config/config.go` that the requester reads.

* Go strings are Lean strings; the library functions `strings.Trim`,
  `strings.ReplaceAll` and `strings.ToLower` are modelled on character lists.
* A Go `map[string]T` is an association list read with first-match lookup.
* The order in which `range` walks a map is not fixed by the language; it is an
  explicit argument (`MapOrder`) of every function that ranges over a map.
* Values of type `interface{}` are values of `Any`.
-/

namespace OasMcp

/-! ## Library functions of package `strings` -/

namespace strings

/-- Go `trimLeftByte`: drop every leading occurrence of the byte `c`. -/
def trimLeftByte (s : List Char) (c : Char) : List Char :=
  s.dropWhile (fun x => x == c)

/-- Go `trimRightByte`: drop every trailing occurrence of the byte `c`. -/
def trimRightByte (s : List Char) (c : Char) : List Char :=
  s.rdropWhile (fun x => x == c)

/-- Go `strings.Trim(s, cutset)` for a cutset of one ASCII byte `c`, which is the
branch `trimLeftByte(trimRightByte(s, c), c)` of the library function. -/
def Trim (s : String) (c : Char) : String :=
  ⟨trimLeftByte (trimRightByte s.data c) c⟩

/-- Left-to-right scan of `strings.Replace` for a non-empty `old`: `skip` counts the
characters of a match that are still to be consumed. -/
def replaceScan (old new : List Char) : Nat → List Char → List Char
  | _, [] => []
  | skip + 1, _ :: cs => replaceScan old new skip cs
  | 0, c :: cs =>
    if old.isPrefixOf (c :: cs) then new ++ replaceScan old new (old.length - 1) cs
    else c :: replaceScan old new 0 cs

/-- Go `strings.ReplaceAll(s, old, new)`: every non-overlapping occurrence of `old`,
found from left to right, is replaced by `new`; an empty `old` matches before every
character and at the end. -/
def ReplaceAll (s old new : String) : String :=
  if old.data = [] then ⟨new.data ++ s.data.flatMap (fun c => c :: new.data)⟩
  else ⟨replaceScan old.data new.data 0 s.data⟩

/-- Go `strings.ToLower` on ASCII letters. The library function also lowers
non-ASCII letters; the code applies it to the eight upper-case verb names, and to the
file name of a document, whose end is then compared with the ASCII text `.json`, into
whose characters no non-ASCII letter is lowered. -/
def ToLower (s : String) : String :=
  ⟨s.data.map Char.toLower⟩

end strings

/-! ## Data model of package `parser` -/

/-- The `Schema` of a parameter; only the type tag (Go field `Type`) is read by the
server. -/
structure Schema where
  Type_ : String
deriving DecidableEq, Repr

/-- Go type `parser.Parameter`. The pointer field `Schema` is `none` when nil. -/
structure Parameter where
  Name : String
  In : String
  Description : String
  Required : Bool
  Schema : Option Schema
deriving DecidableEq, Repr

/-- Go type `parser.RequestBody`. -/
structure RequestBody where
  Description : String
  Required : Bool
deriving DecidableEq, Repr

/-- Go type `parser.Operation`. The pointer field `RequestBody` is `none` when nil. -/
structure Operation where
  OperationID : String
  Summary : String
  Description : String
  Parameters : List Parameter
  RequestBody : Option RequestBody
deriving DecidableEq, Repr

/-- Go type `parser.PathItem`: one optional operation per HTTP verb (`none` is a nil pointer). -/
structure PathItem where
  Get : Option Operation
  Post : Option Operation
  Put : Option Operation
  Delete : Option Operation
  Options : Option Operation
  Head : Option Operation
  Patch : Option Operation
  Trace : Option Operation
deriving DecidableEq, Repr

/-- Go type `parser.OpenAPISpec`, with the fields read by `validateSpec` and `GetOperations`.
`Paths` is the Go map from path string to path item. -/
structure OpenAPISpec where
  OpenAPI : String
  Swagger : String
  Title : String
  Version : String
  Paths : List (String × PathItem)
deriving DecidableEq, Repr

/-- Go type `parser.OperationInfo`. -/
structure OperationInfo where
  Path : String
  Method : String
  Operation : Operation
  OperationID : String
deriving DecidableEq, Repr

/-- The order in which `range` yields the entries of the two maps walked by the
parser: the path map of the document and, for the path item found under `path`, the
verb map that `extractOperations` builds. Go leaves the order open, so any
rearrangement of the entries is admitted. -/
structure MapOrder where
  paths : List (String × PathItem) → List (String × PathItem)
  methods : String → List (String × Option Operation) → List (String × Option Operation)
  paths_perm : ∀ l, (paths l).Perm l
  methods_perm : ∀ p l, (methods p l).Perm l

/-- The iteration that yields the entries in the order in which they are written. -/
def MapOrder.asWritten : MapOrder where
  paths := fun l => l
  methods := fun _ l => l
  paths_perm := fun _ => List.Perm.refl _
  methods_perm := fun _ _ => List.Perm.refl _

/-- The iteration that yields the entries of both maps back to front. -/
def MapOrder.reversed : MapOrder where
  paths := fun l => l.reverse
  methods := fun _ l => l.reverse
  paths_perm := fun l => List.reverse_perm l
  methods_perm := fun _ l => List.reverse_perm l

/-- The eight verb names, in the order of the map literal of `extractOperations`. -/
def verbs : List String :=
  ["GET", "POST", "PUT", "DELETE", "OPTIONS", "HEAD", "PATCH", "TRACE"]

/-- The map literal `methods` of `extractOperations`. -/
def methodsOf (pathItem : PathItem) : List (String × Option Operation) :=
  [("GET", pathItem.Get), ("POST", pathItem.Post), ("PUT", pathItem.Put),
   ("DELETE", pathItem.Delete), ("OPTIONS", pathItem.Options), ("HEAD", pathItem.Head),
   ("PATCH", pathItem.Patch), ("TRACE", pathItem.Trace)]

/-- The identifier `fmt.Sprintf("%s_%s", strings.ToLower(method),
strings.ReplaceAll(strings.Trim(path, "/"), "/", "_"))`. -/
def synthesizedID (method path : String) : String :=
  strings.ToLower method ++ "_" ++ strings.ReplaceAll (strings.Trim path '/') "/" "_"

/-- Body of the loop of `extractOperations` for one entry of the verb map. -/
def extractStep (path : String) (operations : List OperationInfo)
    (entry : String × Option Operation) : List OperationInfo :=
  match entry.2 with
  | some operation =>
    let operationID :=
      if operation.OperationID = "" then synthesizedID entry.1 path
      else operation.OperationID
    operations ++ [{ Path := path, Method := entry.1, Operation := operation,
                     OperationID := operationID }]
  | none => operations

/-- Go method `Parser.extractOperations`. -/
def extractOperations (ord : MapOrder) (path : String) (pathItem : PathItem) :
    List OperationInfo :=
  (ord.methods path (methodsOf pathItem)).foldl (extractStep path) []

/-- Go method `Parser.GetOperations`. -/
def GetOperations (ord : MapOrder) (spec : OpenAPISpec) : List OperationInfo :=
  (ord.paths spec.Paths).foldl
    (fun operations entry => operations ++ extractOperations ord entry.1 entry.2) []

/-- Go method `Parser.validateSpec`: the error text of the first failed check, or success. -/
def validateSpec (spec : OpenAPISpec) : Except String Unit :=
  if spec.OpenAPI = "" ∧ spec.Swagger = "" then .error "missing OpenAPI/Swagger version"
  else if spec.Title = "" then .error "missing info.title"
  else if spec.Version = "" then .error "missing info.version"
  else if spec.Paths = [] then .error "no paths defined"
  else .ok ()

/-! ## Go maps with string keys -/

/-- The read `m[k]` of a Go map, with its `exists` flag as the option. -/
def mapGet {α : Type} (m : List (String × α)) (k : String) : Option α :=
  m.lookup k

/-- The assignment `m[k] = v` of a Go map: an earlier entry under `k` is replaced. -/
def mapSet {α : Type} (m : List (String × α)) (k : String) (v : α) : List (String × α) :=
  (k, v) :: m.filter (fun e => e.1 != k)

/-! ## Data model of packages `server` and `requester` -/

/-- Go type `server.Property`, with the two fields the generator fills. -/
structure Property where
  Type_ : String
  Description : String
deriving DecidableEq, Repr

/-- Go type `server.Schema`, the input schema of a tool. -/
structure InputSchema where
  Type_ : String
  Properties : List (String × Property)
  Required : List String
deriving DecidableEq, Repr

/-- Go type `server.Tool`. `Operation` is the catalog entry the tool points to. -/
structure Tool where
  Name : String
  Description : String
  InputSchema : InputSchema
  Operation : OperationInfo
deriving DecidableEq, Repr

/-- A Go value of type `interface{}`: what `encoding/json` decodes a document into
(`nil`, `bool`, `float64`, `string`, slices and string-keyed maps), and the tool
slice the server stores in a result. A `float64` is kept as its bit pattern. -/
inductive Any where
  | nil : Any
  | bool (b : Bool) : Any
  | float64 (bits : Nat) : Any
  | string (s : String) : Any
  | slice (xs : List Any) : Any
  | map (kvs : List (String × Any)) : Any
  | tools (ts : List Tool) : Any

/-- Go type `requester.Request`. `Body` is `Any.nil` when no body was assigned. -/
structure Request where
  Method : String
  Path : String
  Headers : List (String × String)
  Query : List (String × String)
  Body : Any

/-- Go type `requester.Response`. -/
structure Response where
  StatusCode : Int
  Headers : List (String × String)
  Body : Any

/-- Go type `server.MCPRequest`. An absent or null `id` or `params` decodes to `Any.nil`. -/
structure MCPRequest where
  JSONRPC : String
  ID : Any
  Method : String
  Params : Any

/-- Go type `server.MCPError`. -/
structure MCPError where
  Code : Int
  Message : String
  Data : Any

/-- Go type `server.MCPResponse`. `Result` is `Any.nil` and `Error` is `none` when unset. -/
structure MCPResponse where
  JSONRPC : String
  ID : Any
  Result : Any
  Error : Option MCPError

/-- What the server calls outside this embedding: the upstream exchange
`Requester.Execute` (its error text on failure), the `%v` rendering of `fmt` for
values that are not strings, booleans or nil, and `json.MarshalIndent` of the
status/headers/body map of a response. -/
structure Env where
  Execute : Request → Except String Response
  sprintOther : Any → String
  MarshalIndent : Response → String

/-- The server after construction: the generated tool list. -/
structure Server where
  tools : List Tool

/-! ## Tool generation -/

/-- Go method `Server.generateToolName`. -/
def generateToolName (op : OperationInfo) : String :=
  if op.OperationID ≠ "" then op.OperationID
  else synthesizedID op.Method op.Path

/-- Go method `Server.generateToolDescription`. -/
def generateToolDescription (op : OperationInfo) : String :=
  if op.Operation.Description ≠ "" then op.Operation.Description
  else if op.Operation.Summary ≠ "" then op.Operation.Summary
  else op.Method ++ " " ++ op.Path

/-- Body of the parameter loop of `generateInputSchema`. -/
def schemaStep (schema : InputSchema) (param : Parameter) : InputSchema :=
  let property : Property :=
    { Type_ := match param.Schema with
               | some sc => if sc.Type_ ≠ "" then sc.Type_ else "string"
               | none => "string",
      Description := param.Description }
  let schema := { schema with Properties := mapSet schema.Properties param.Name property }
  if param.Required then { schema with Required := schema.Required ++ [param.Name] }
  else schema

/-- Go method `Server.generateInputSchema`. -/
def generateInputSchema (op : OperationInfo) : InputSchema :=
  let schema : InputSchema := { Type_ := "object", Properties := [], Required := [] }
  let schema := op.Operation.Parameters.foldl schemaStep schema
  match op.Operation.RequestBody with
  | some body =>
    let schema := { schema with
      Properties := mapSet schema.Properties "body"
        { Type_ := "object", Description := body.Description } }
    if body.Required then { schema with Required := schema.Required ++ ["body"] }
    else schema
  | none => schema

/-- Go method `Server.generateTools`, started from the empty tool list of a new server. Each
tool points to the catalog entry of its own loop iteration (the loop variable is
per-iteration, as from Go 1.22). The function has no failure path. -/
def generateTools (ord : MapOrder) (spec : OpenAPISpec) : List Tool :=
  (GetOperations ord spec).foldl
    (fun tools op =>
      tools ++ [{ Name := generateToolName op,
                  Description := generateToolDescription op,
                  InputSchema := generateInputSchema op,
                  Operation := op }]) []

/-! ## Request binding and dispatch -/

/-- The rendering `fmt.Sprintf("%v", value)`. -/
def sprintV (env : Env) : Any → String
  | .string s => s
  | .bool true => "true"
  | .bool false => "false"
  | .nil => "<nil>"
  | v => env.sprintOther v

/-- Body of the parameter loop of `executeTool`. -/
def bindStep (env : Env) (arguments : List (String × Any)) (req : Request)
    (param : Parameter) : Request :=
  match mapGet arguments param.Name with
  | some value =>
    if param.In = "query" then
      { req with Query := mapSet req.Query param.Name (sprintV env value) }
    else if param.In = "header" then
      { req with Headers := mapSet req.Headers param.Name (sprintV env value) }
    else if param.In = "path" then
      { req with Path := strings.ReplaceAll req.Path ("\x7b" ++ param.Name ++ "\x7d")
                           (sprintV env value) }
    else req
  | none => req

/-- The part of `executeTool` that builds the upstream request from the arguments. -/
def bindRequest (env : Env) (tool : Tool) (arguments : List (String × Any)) : Request :=
  let req : Request :=
    { Method := tool.Operation.Method, Path := tool.Operation.Path,
      Headers := [], Query := [], Body := .nil }
  let req := tool.Operation.Operation.Parameters.foldl (bindStep env arguments) req
  match tool.Operation.Operation.RequestBody with
  | some _ =>
    match mapGet arguments "body" with
    | some bodyData => { req with Body := bodyData }
    | none => req
  | none => req

/-- Go method `Server.executeTool`: the text or the error, and the requests handed to
`Requester.Execute`. -/
def executeTool (env : Env) (tool : Tool) (arguments : List (String × Any)) :
    Except String String × List Request :=
  let req := bindRequest env tool arguments
  match env.Execute req with
  | .error err => (.error ("failed to execute request: " ++ err), [req])
  | .ok response => (.ok (env.MarshalIndent response), [req])

/-- The error response every handler builds. -/
def errorResponse (id : Any) (code : Int) (message : String) : MCPResponse :=
  { JSONRPC := "2.0", ID := id, Result := .nil,
    Error := some { Code := code, Message := message, Data := .nil } }

/-- Go method `Server.handleInitialize`. -/
def handleInitialize (request : MCPRequest) : MCPResponse :=
  { JSONRPC := "2.0", ID := request.ID,
    Result := .map [("protocolVersion", .string "2024-11-05"),
                    ("capabilities", .map [("tools", .map [])]),
                    ("serverInfo", .map [("name", .string "oas-mcp"),
                                         ("version", .string "1.0.0")])],
    Error := none }

/-- Go method `Server.handleToolsList`. -/
def handleToolsList (s : Server) (request : MCPRequest) : MCPResponse :=
  { JSONRPC := "2.0", ID := request.ID,
    Result := .map [("tools", .tools s.tools)], Error := none }

/-- The value of `arguments, _ := params["arguments"].(map[string]interface{})`: the
nil map when the key is absent or its value is not an object. -/
def argumentsOf (params : List (String × Any)) : List (String × Any) :=
  match mapGet params "arguments" with
  | some (.map args) => args
  | _ => []

/-- The response `handleToolsCall` builds from the outcome of `executeTool`. -/
def callResponse (id : Any) : Except String String → MCPResponse
  | .error err => errorResponse id (-32603) err
  | .ok result =>
    { JSONRPC := "2.0", ID := id,
      Result := .map [("content",
        .slice [.map [("type", .string "text"), ("text", .string result)]])],
      Error := none }

/-- Go method `Server.handleToolsCall`: the response and the requests handed to
`Requester.Execute` while it was computed. -/
def handleToolsCall (env : Env) (s : Server) (request : MCPRequest) :
    MCPResponse × List Request :=
  match request.Params with
  | .map params =>
    match mapGet params "name" with
    | some (.string toolName) =>
      let arguments := argumentsOf params
      match s.tools.find? (fun t => t.Name == toolName) with
      | some tool =>
        let outcome := executeTool env tool arguments
        (callResponse request.ID outcome.1, outcome.2)
      | none => (errorResponse request.ID (-32602) "Tool not found", [])
    | _ => (errorResponse request.ID (-32602) "Missing tool name", [])
  | _ => (errorResponse request.ID (-32602) "Invalid params", [])

/-- Go method `Server.handleRequest`: the response and the requests handed to
`Requester.Execute` while it was computed. -/
def handleRequest (env : Env) (s : Server) (request : MCPRequest) :
    MCPResponse × List Request :=
  if request.Method = "initialize" then (handleInitialize request, [])
  else if request.Method = "tools/list" then (handleToolsList s request, [])
  else if request.Method = "tools/call" then handleToolsCall env s request
  else (errorResponse request.ID (-32601) "Method not found", [])

/-! ## Sample documents -/

/-- An operation with no identifier, no text, no parameters and no body. -/
def bareOperation : Operation :=
  { OperationID := "", Summary := "", Description := "", Parameters := [],
    RequestBody := none }

/-- A path item with no operation at all. -/
def emptyPathItem : PathItem :=
  { Get := none, Post := none, Put := none, Delete := none, Options := none,
    Head := none, Patch := none, Trace := none }

/-- The GET operation of the pet scenario: one required path parameter `id`. -/
def petOperation : Operation :=
  { bareOperation with
    Parameters := [{ Name := "id", In := "path", Description := "", Required := true,
                     Schema := none }] }

/-- The document whose only path is `/pets/{id}`, with the GET operation above. -/
def petDocument : OpenAPISpec :=
  { OpenAPI := "3.0.0", Swagger := "", Title := "pets", Version := "1",
    Paths := [("/pets/\x7bid\x7d", { emptyPathItem with Get := some petOperation })] }

/-- A document with one path carrying a GET and a POST operation. -/
def twoVerbDocument : OpenAPISpec :=
  { OpenAPI := "3.0.0", Swagger := "", Title := "pets", Version := "1",
    Paths := [("/pets", { emptyPathItem with
                          Get := some bareOperation, Post := some bareOperation })] }

/-! ## Definitions used to state the properties -/

/-- The catalog entry `extractOperations` builds for one entry of the verb map, if
the slot is not nil. -/
def infoOf (path : String) (entry : String × Option Operation) : Option OperationInfo :=
  entry.2.map (fun operation =>
    { Path := path, Method := entry.1, Operation := operation,
      OperationID := if operation.OperationID = "" then synthesizedID entry.1 path
                     else operation.OperationID })

/-- The tool `generateTools` builds for one catalog entry. -/
def toolOf (op : OperationInfo) : Tool :=
  { Name := generateToolName op, Description := generateToolDescription op,
    InputSchema := generateInputSchema op, Operation := op }

/-- A valid document in which two paths synthesize the same tool name. -/
def collidingDocument : OpenAPISpec :=
  { OpenAPI := "3.0.0", Swagger := "", Title := "collide", Version := "1",
    Paths := [("/a/b", { emptyPathItem with Get := some bareOperation }),
              ("/a_b", { emptyPathItem with Get := some bareOperation })] }

/-- An environment whose upstream is unreachable. -/
def offlineEnv : Env :=
  { Execute := fun _ => .error "connection refused",
    sprintOther := fun _ => "",
    MarshalIndent := fun _ => "" }

/-- An environment whose upstream answers every request with an empty 200. -/
def onlineEnv : Env :=
  { Execute := fun _ => .ok { StatusCode := 200, Headers := [], Body := .nil },
    sprintOther := fun _ => "",
    MarshalIndent := fun _ => "ok" }

/-- The server generated from the pet document. -/
def petServer : Server :=
  { tools := generateTools MapOrder.asWritten petDocument }

/-- The declared path parameters that have an argument, in declaration order, each
with the rendering of its argument. -/
def pathBindings (env : Env) (arguments : List (String × Any)) (params : List Parameter) :
    List (String × String) :=
  params.filterMap (fun p =>
    if p.In = "path" then (mapGet arguments p.Name).map (fun v => (p.Name, sprintV env v))
    else none)

/-- One substitution: every occurrence of `{name}` in `path` is replaced by `value`. -/
def substitute (path : String) (binding : String × String) : String :=
  strings.ReplaceAll path ("\x7b" ++ binding.1 ++ "\x7d") binding.2

/-- The tool of the pet document. -/
def petTool : Tool :=
  { Name := "get_pets_\x7bid\x7d", Description := "GET /pets/\x7bid\x7d",
    InputSchema := { Type_ := "object",
                     Properties := [("id", { Type_ := "string", Description := "" })],
                     Required := ["id"] },
    Operation := { Path := "/pets/\x7bid\x7d", Method := "GET", Operation := petOperation,
                   OperationID := "get_pets_\x7bid\x7d" } }

/-- A GET operation with the two path parameters `a` and `b` and no `operationId`. -/
def chainOperation : Operation :=
  { bareOperation with
    Parameters :=
      [{ Name := "a", In := "path", Description := "", Required := true, Schema := none },
       { Name := "b", In := "path", Description := "", Required := true, Schema := none }] }

/-- The document whose only path is `/{a}/{b}`, with the GET operation above. -/
def chainDocument : OpenAPISpec :=
  { OpenAPI := "3.0.0", Swagger := "", Title := "chain", Version := "1",
    Paths := [("/\x7ba\x7d/\x7bb\x7d", { emptyPathItem with Get := some chainOperation })] }

/-- The tool generated for the path `/{a}/{b}` of the document above. -/
def chainTool : Tool :=
  toolOf { Path := "/\x7ba\x7d/\x7bb\x7d", Method := "GET", Operation := chainOperation,
           OperationID := "get_\x7ba\x7d_\x7bb\x7d" }

/-- The tool with its operation's parameter list replaced by `params`. -/
def withParameters (tool : Tool) (params : List Parameter) : Tool :=
  { tool with Operation := { tool.Operation with
      Operation := { tool.Operation.Operation with Parameters := params } } }

/-- A tool with a required query parameter `limit`, a header parameter `X-Trace` and
a required path parameter `id`. -/
def searchTool : Tool :=
  toolOf
    { Path := "/items/\x7bid\x7d", Method := "GET", OperationID := "search",
      Operation := { bareOperation with
        OperationID := "search",
        Parameters :=
          [{ Name := "limit", In := "query", Description := "", Required := true,
             Schema := none },
           { Name := "X-Trace", In := "header", Description := "", Required := false,
             Schema := none },
           { Name := "id", In := "path", Description := "", Required := true,
             Schema := none }] } }

/-! ## Package `requester`: configuration, URL, headers, authentication -/

/-- Go type `config.Upstream`. -/
structure Upstream where
  BaseURL : String
  Timeout : Int
deriving DecidableEq, Repr

/-- Go type `config.Auth` (the Go field `Type` is `Type_`). -/
structure Auth where
  Type_ : String
  Token : String
  Username : String
  Password : String
  APIKey : String
deriving DecidableEq, Repr

/-- Go type `config.Config`, with the two sections the requester reads. -/
structure Config where
  Upstream : Upstream
  Auth : Auth
deriving DecidableEq, Repr

/-- The order in which `range` yields the entries of a `map[string]string` (the query
map in `buildURL`, the caller's header map in `setHeaders`): any rearrangement of the
entries. -/
structure RangeOrder where
  entries : List (String × String) → List (String × String)
  perm : ∀ l, (entries l).Perm l

/-- The iteration that yields the entries in the order in which they are written. -/
def RangeOrder.asWritten : RangeOrder where
  entries := fun l => l
  perm := fun _ => List.Perm.refl _

/-- The iteration that yields the entries back to front. -/
def RangeOrder.reversed : RangeOrder where
  entries := fun l => l.reverse
  perm := fun l => List.reverse_perm l

/-- The outgoing `http.Request` as far as the requester shapes it: method, URL, the
header map (canonical name to the single value `Header.Set` leaves) and the encoded
body, `none` when the request has no body. -/
structure HTTPRequest where
  Method : String
  URL : String
  Header : List (String × String)
  Body : Option String

namespace textproto

/-- The punctuation bytes that may occur in a header field name. -/
def tokenPunctuation : List Char :=
  "!#$%&\x27*+-.^_\x60|~".data

/-- Go `validHeaderFieldByte`: the token characters of RFC 7230, all of them ASCII. -/
def validHeaderFieldByte (c : Char) : Bool :=
  c.isAlphanum || tokenPunctuation.contains c

/-- The canonicalizing loop of `canonicalMIMEHeaderKey`: a letter is put in upper case
at the start and after a dash, in lower case elsewhere. -/
def canonicalLoop : Bool → List Char → List Char
  | _, [] => []
  | upper, c :: cs =>
    let c' := if upper && c.isLower then c.toUpper
              else if !upper && c.isUpper then c.toLower
              else c
    c' :: canonicalLoop (c' == '-') cs

/-- Go `textproto.CanonicalMIMEHeaderKey`: a key with a byte that is not a token
character is returned unchanged, every other key is canonicalized. -/
def CanonicalMIMEHeaderKey (s : String) : String :=
  if s.data.all validHeaderFieldByte then ⟨canonicalLoop true s.data⟩ else s

end textproto

/-- Go `http.Header.Set`: the value stored under the canonical form of the key is
replaced. -/
def headerSet (h : List (String × String)) (key value : String) : List (String × String) :=
  mapSet h (textproto.CanonicalMIMEHeaderKey key) value

namespace base64

/-- The UTF-8 bytes of a character. -/
def utf8Bytes (c : Char) : List Nat :=
  let n := c.toNat
  if n < 128 then [n]
  else if n < 2048 then [192 + n / 64, 128 + n % 64]
  else if n < 65536 then [224 + n / 4096, 128 + n / 64 % 64, 128 + n % 64]
  else [240 + n / 262144, 128 + n / 4096 % 64, 128 + n / 64 % 64, 128 + n % 64]

/-- The alphabet of `base64.StdEncoding`. -/
def alphabet : List Char :=
  "ABCDEFGHIJKLMNOPQRSTUVWXYZabcdefghijklmnopqrstuvwxyz0123456789+/".data

/-- The character of a six-bit value. -/
def digit (n : Nat) : Char :=
  alphabet.getD n 'A'

/-- The encoding of a byte sequence, three bytes to four characters, padded with `=`. -/
def encodeBytes : List Nat → List Char
  | a :: b :: c :: rest =>
    digit (a / 4) :: digit (a % 4 * 16 + b / 16) :: digit (b % 16 * 4 + c / 64) ::
      digit (c % 64) :: encodeBytes rest
  | [a, b] => [digit (a / 4), digit (a % 4 * 16 + b / 16), digit (b % 16 * 4), '=']
  | [a] => [digit (a / 4), digit (a % 4 * 16), '=', '=']
  | [] => []

/-- Go `base64.StdEncoding.EncodeToString([]byte(s))`. -/
def EncodeToString (s : String) : String :=
  ⟨encodeBytes (s.data.flatMap utf8Bytes)⟩

end base64

/-- Go `Requester.buildURL`. The query entries are appended in the order `ord` yields
them. -/
def buildURL (ord : RangeOrder) (cfg : Config) (path : String)
    (query : List (String × String)) : String :=
  let url := if cfg.Upstream.BaseURL = "" then "http://localhost" else cfg.Upstream.BaseURL
  let url :=
    if path ≠ "" then
      (if url.data.getLast? ≠ some '/' ∧ path.data.head? ≠ some '/' then url ++ "/"
       else url) ++ path
    else url
  if query.length > 0 then
    ((ord.entries query).foldl
      (fun (acc : String × Bool) e =>
        ((if !acc.2 then acc.1 ++ "&" else acc.1) ++ (e.1 ++ "=" ++ e.2), false))
      (url ++ "?", true)).1
  else url

/-- Go `Requester.setHeaders`. The caller's headers are set in the order `ord` yields
them. -/
def setHeaders (ord : RangeOrder) (req : HTTPRequest) (headers : List (String × String)) :
    HTTPRequest :=
  let h := headerSet req.Header "Accept" "application/json"
  let h := headerSet h "User-Agent" "oas-mcp/1.0"
  let h := if req.Body.isSome then headerSet h "Content-Type" "application/json" else h
  { req with Header := (ord.entries headers).foldl (fun h e => headerSet h e.1 e.2) h }

/-- Go `http.Request.SetBasicAuth`. -/
def SetBasicAuth (req : HTTPRequest) (username password : String) : HTTPRequest :=
  { req with
    Header := headerSet req.Header "Authorization"
                ("Basic " ++ base64.EncodeToString (username ++ ":" ++ password)) }

/-- Go `Requester.setAuthentication`. -/
def setAuthentication (cfg : Config) (req : HTTPRequest) : HTTPRequest :=
  if cfg.Auth.Type_ = "bearer" then
    if cfg.Auth.Token ≠ "" then
      { req with Header := headerSet req.Header "Authorization" ("Bearer " ++ cfg.Auth.Token) }
    else req
  else if cfg.Auth.Type_ = "basic" then
    if cfg.Auth.Username ≠ "" ∧ cfg.Auth.Password ≠ "" then
      SetBasicAuth req cfg.Auth.Username cfg.Auth.Password
    else req
  else if cfg.Auth.Type_ = "apikey" then
    let req :=
      if cfg.Auth.APIKey ≠ "" then
        { req with
          Header := headerSet req.Header "Authorization" ("ApiKey " ++ cfg.Auth.APIKey) }
      else req
    if cfg.Auth.Token ≠ "" then
      { req with Header := headerSet req.Header "X-API-Key" cfg.Auth.Token }
    else req
  else req

/-- The part of `Requester.Execute` that runs before the request is sent: the URL is
built, a non-nil body is marshalled (`marshal` is `json.Marshal`, which does not fail
on decoded JSON), the request is created with an empty header map, then the headers and
the authentication are set. -/
def prepareRequest (ord : RangeOrder) (cfg : Config) (marshal : Any → String)
    (req : Request) : HTTPRequest :=
  let url := buildURL ord cfg req.Path req.Query
  let body : Option String :=
    match req.Body with
    | .nil => none
    | v => some (marshal v)
  let httpReq : HTTPRequest := { Method := req.Method, URL := url, Header := [], Body := body }
  setAuthentication cfg (setHeaders ord httpReq req.Headers)

/-- A configuration with basic authentication for user `u` with password `p`, and a
base URL that ends with a slash. -/
def basicConfig : Config :=
  { Upstream := { BaseURL := "http://api/", Timeout := 30 },
    Auth := { Type_ := "basic", Token := "t", Username := "u", Password := "p",
              APIKey := "k" } }

/-- The same configuration with authentication switched off; the credentials stay. -/
def noneConfig : Config :=
  { basicConfig with Auth := { basicConfig.Auth with Type_ := "none" } }

/-- A POST operation that declares a required request body and nothing else. -/
def uploadOperation : Operation :=
  { bareOperation with
    RequestBody := some { Description := "the upload", Required := true } }

/-- The tool generated for `POST /upload` with the operation above. -/
def uploadTool : Tool :=
  toolOf { Path := "/upload", Method := "POST", Operation := uploadOperation,
           OperationID := "post_upload" }

/-- The string without its last character when that is a slash. -/
def withoutTrailingSlash (s : String) : String :=
  if s.data.getLast? = some '/' then ⟨s.data.dropLast⟩ else s

/-- The string without its first character when that is a slash. -/
def withoutLeadingSlash (s : String) : String :=
  if s.data.head? = some '/' then ⟨s.data.tail⟩ else s

/-- The join of base and path with exactly one slash between them. -/
def joinedWithOneSlash (base path : String) : String :=
  withoutTrailingSlash base ++ "/" ++ withoutLeadingSlash path

/-- The base URL `buildURL` starts from. -/
def baseOf (cfg : Config) : String :=
  if cfg.Upstream.BaseURL = "" then "http://localhost" else cfg.Upstream.BaseURL

/-- The header a request carries before the caller's headers are applied: `Accept` and
`User-Agent` always, `Content-Type` when the request has a body, nothing else. -/
def defaultHeader (hasBody : Bool) (name : String) : Option String :=
  if name = "Accept" then some "application/json"
  else if name = "User-Agent" then some "oas-mcp/1.0"
  else if name = "Content-Type" ∧ hasBody = true then some "application/json"
  else none

/-- The request `http.NewRequestWithContext` returns: an empty header map. -/
def newHTTPRequest (method url : String) (body : Option String) : HTTPRequest :=
  { Method := method, URL := url, Header := [], Body := body }

/-! ## JSON encoding of the tool list -/

namespace json

/-- The JSON object `encoding/json` writes for a `server.Property`: `type`, and
`description` unless empty (the other fields are never set and carry `omitempty`). -/
def encodeProperty (p : Property) : Any :=
  .map ([("type", .string p.Type_)] ++
        (if p.Description = "" then [] else [("description", .string p.Description)]))

/-- The JSON object written for a `server.Schema`: `type`, `properties`, and `required`
unless empty. -/
def encodeSchema (s : InputSchema) : Any :=
  .map ([("type", .string s.Type_),
         ("properties", .map (s.Properties.map (fun e => (e.1, encodeProperty e.2))))] ++
        (if s.Required = [] then [] else [("required", .slice (s.Required.map .string))]))

/-- The JSON object written for the `parser.OperationInfo` a tool points to. The struct
has no field tags, so the keys are the field names; `encodeOperation` is the encoding of
the nested `parser.Operation`. -/
def encodeOperationInfo (encodeOperation : Operation → Any) (info : OperationInfo) : Any :=
  .map [("Path", .string info.Path), ("Method", .string info.Method),
        ("Operation", encodeOperation info.Operation),
        ("OperationID", .string info.OperationID)]

/-- The JSON object written for a `server.Tool`: the three tagged fields under their
tag names, and the exported field `Operation`, which has no tag and is never nil, under
its field name. -/
def encodeTool (encodeOperation : Operation → Any) (t : Tool) : Any :=
  .map [("name", .string t.Name), ("description", .string t.Description),
        ("inputSchema", encodeSchema t.InputSchema),
        ("Operation", encodeOperationInfo encodeOperation t.Operation)]

/-- The JSON value written for a result: a tool slice under a key is written tool by
tool (a nil slice as null); the other results hold JSON values already. -/
def encodeResult (encodeOperation : Operation → Any) : Any → Any
  | .map [(key, .tools ts)] =>
    .map [(key, if ts = [] then .nil else .slice (ts.map (encodeTool encodeOperation)))]
  | v => v

end json

/-- The keys of a JSON object, in the order written; no keys for any other value. -/
def Any.keys : Any → List String
  | .map kvs => kvs.map (fun e => e.1)
  | _ => []

/-! ## Parsing a document -/

namespace strings

/-- Go `unicode.IsSpace`: the white space characters of Unicode. -/
def isSpace (c : Char) : Bool :=
  let n := c.toNat
  (9 ≤ n && n ≤ 13) || n == 32 || n == 133 || n == 160 || n == 5760 ||
  (8192 ≤ n && n ≤ 8202) || n == 8232 || n == 8233 || n == 8239 || n == 8287 || n == 12288

/-- Go `strings.TrimSpace`: all leading and trailing white space is removed. -/
def TrimSpace (s : String) : String :=
  ⟨(s.data.dropWhile isSpace).rdropWhile isSpace⟩

/-- Go `strings.HasPrefix`. -/
def HasPrefix (s pre : String) : Bool :=
  pre.data.isPrefixOf s.data

/-- Go `strings.HasSuffix`. -/
def HasSuffix (s suffix : String) : Bool :=
  suffix.data.isSuffixOf s.data

end strings

/-- The two decoders `Parse` calls, `json.Unmarshal` and `yaml.Unmarshal` into an
`OpenAPISpec`: the decoded document, or the error text. -/
structure Decoders where
  jsonUnmarshal : String → Except String OpenAPISpec
  yamlUnmarshal : String → Except String OpenAPISpec

/-- The format test `isJSON` of `Parser.Parse`. -/
def isJSON (data filename : String) : Bool :=
  strings.HasSuffix (strings.ToLower filename) ".json" ||
    strings.HasPrefix (strings.TrimSpace data) "\x7b"

/-- The decoding step of `Parser.Parse`. -/
def decodeSpec (dec : Decoders) (data filename : String) : Except String OpenAPISpec :=
  if isJSON data filename then
    match dec.jsonUnmarshal data with
    | .error err => .error ("failed to parse JSON: " ++ err)
    | .ok spec => .ok spec
  else
    match dec.yamlUnmarshal data with
    | .error err => .error ("failed to parse YAML: " ++ err)
    | .ok spec => .ok spec

/-- Go method `Parser.Parse`. -/
def Parse (dec : Decoders) (data filename : String) : Except String OpenAPISpec :=
  match decodeSpec dec data filename with
  | .error err => .error err
  | .ok spec =>
    match validateSpec spec with
    | .error err => .error ("invalid OpenAPI specification: " ++ err)
    | .ok _ => .ok spec

/-- Decoders that fail on every input, each with its own text. -/
def failingDecoders : Decoders :=
  { jsonUnmarshal := fun _ => .error "bad json",
    yamlUnmarshal := fun _ => .error "bad yaml" }

/-- Decoders that return the pet document stripped of its title, whatever the input. -/
def untitledDecoders : Decoders :=
  { jsonUnmarshal := fun _ => .ok { petDocument with Title := "" },
    yamlUnmarshal := fun _ => .ok { petDocument with Title := "" } }

/-- Decoders that return the pet document, whatever the input. -/
def petDecoders : Decoders :=
  { jsonUnmarshal := fun _ => .ok petDocument,
    yamlUnmarshal := fun _ => .ok petDocument }

/-- Decoders that return the document with the colliding paths, whatever the input. -/
def collidingDecoders : Decoders :=
  { jsonUnmarshal := fun _ => .ok collidingDocument,
    yamlUnmarshal := fun _ => .ok collidingDocument }

/-- What opening and reading the document file gives `ParseFile`: the error text of
`os.Open`, the error text of `io.ReadAll`, or the bytes of the file. -/
inductive FileRead where
  | openError (err : String) : FileRead
  | readError (err : String) : FileRead
  | content (data : String) : FileRead

/-- Go method `Parser.ParseFile`, on the outcome of opening and reading `filename`. -/
def ParseFile (dec : Decoders) (file : FileRead) (filename : String) :
    Except String OpenAPISpec :=
  match file with
  | .openError err => .error ("failed to open file: " ++ err)
  | .readError err => .error ("failed to read file: " ++ err)
  | .content data => Parse dec data filename

/-- Go function `NewServer`: the document file `source` (the configured
`SwaggerFile`) is parsed, a failure of `ParseFile` is returned with its prefix, and
otherwise the tools are generated from the parsed document. -/
def NewServer (ord : MapOrder) (dec : Decoders) (file : FileRead) (source : String) :
    Except String Server :=
  match ParseFile dec file source with
  | .error err => .error ("failed to parse OpenAPI spec from " ++ source ++ ": " ++ err)
  | .ok spec => .ok { tools := generateTools ord spec }

/-- The property the claim assigns to a parameter: the type of its schema when a
schema with a non-empty type is present and "string" otherwise, and its description. -/
def parameterProperty (p : Parameter) : Property :=
  { Type_ := match p.Schema with
             | some sc => if sc.Type_ = "" then "string" else sc.Type_
             | none => "string",
    Description := p.Description }

/-- A catalog entry for `GET /items` with the given operation. -/
def itemsEntry (operation : Operation) : OperationInfo :=
  { Path := "/items", Method := "GET", Operation := operation, OperationID := "get_items" }

/-- An operation that declares `id` twice, as an integer path parameter and as a query
parameter without schema. -/
def twiceDeclaredOperation : Operation :=
  { bareOperation with
    Parameters :=
      [{ Name := "id", In := "path", Description := "path id", Required := true,
         Schema := some { Type_ := "integer" } },
       { Name := "id", In := "query", Description := "query id", Required := false,
         Schema := none }] }

/-- An operation in the style of Swagger 2: a required parameter named `body`, located
in the body, and no RequestBody. -/
def bodyParameterOperation : Operation :=
  { bareOperation with
    Parameters :=
      [{ Name := "body", In := "body", Description := "the payload", Required := true,
         Schema := some { Type_ := "object" } }] }

/-- The normalized form of a path in a synthesized identifier: the part of
`synthesizedID` after the verb and the underscore. -/
def normalizedPath (path : String) : String :=
  strings.ReplaceAll (strings.Trim path '/') "/" "_"

/-- A catalog entry for `GET /items` whose operation has a summary and no description. -/
def summaryEntry : OperationInfo :=
  itemsEntry { bareOperation with Summary := "List the items" }

/-! # Properties -/

/-! ## The operation catalog -/

theorem extractStep_eq (path : String) (acc : List OperationInfo)
    (entry : String × Option Operation) :
    extractStep path acc entry = acc ++ (infoOf path entry).toList := by
  obtain ⟨verb, slot⟩ := entry
  cases slot <;> simp [extractStep, infoOf]

theorem foldl_extractStep (path : String) (l : List (String × Option Operation))
    (acc : List OperationInfo) :
    l.foldl (extractStep path) acc = acc ++ l.filterMap (infoOf path) := by
  induction l generalizing acc with
  | nil => simp
  | cons e l ih =>
    rw [List.foldl_cons, ih, extractStep_eq]
    cases h : infoOf path e <;> simp [List.filterMap_cons, h]

theorem extractOperations_eq (ord : MapOrder) (path : String) (pathItem : PathItem) :
    extractOperations ord path pathItem
      = (ord.methods path (methodsOf pathItem)).filterMap (infoOf path) := by
  simp [extractOperations, foldl_extractStep]

theorem foldl_append_eq_flatMap {α β : Type} (f : α → List β) (l : List α) (acc : List β) :
    l.foldl (fun out a => out ++ f a) acc = acc ++ l.flatMap f := by
  induction l generalizing acc with
  | nil => simp
  | cons a l ih => simp [ih]

theorem GetOperations_eq (ord : MapOrder) (spec : OpenAPISpec) :
    GetOperations ord spec
      = (ord.paths spec.Paths).flatMap (fun e => extractOperations ord e.1 e.2) := by
  simp [GetOperations, foldl_append_eq_flatMap]

theorem extractOperations_perm (ord ord' : MapOrder) (path : String) (pathItem : PathItem) :
    (extractOperations ord path pathItem).Perm (extractOperations ord' path pathItem) := by
  rw [extractOperations_eq, extractOperations_eq]
  exact ((ord.methods_perm path _).trans (ord'.methods_perm path _).symm).filterMap _

theorem GetOperations_perm (ord ord' : MapOrder) (spec : OpenAPISpec) :
    (GetOperations ord spec).Perm (GetOperations ord' spec) := by
  rw [GetOperations_eq, GetOperations_eq]
  refine (List.Perm.flatMap_right _
    ((ord.paths_perm spec.Paths).trans (ord'.paths_perm spec.Paths).symm)).trans ?_
  exact List.Perm.flatMap_left _ (fun e _ => extractOperations_perm ord ord' e.1 e.2)

theorem map_Method_filterMap_infoOf (path : String) (l : List (String × Option Operation)) :
    (l.filterMap (infoOf path)).map (fun info => info.Method)
      = (l.filter (fun e => e.2.isSome)).map (fun e => e.1) := by
  induction l with
  | nil => rfl
  | cons e l ih =>
    obtain ⟨verb, slot⟩ := e
    cases slot <;> simp [infoOf, List.filterMap_cons, List.filter_cons] <;> simpa [infoOf] using ih

/-- C1 (amended): the catalog entries of a path item come out in the order in which
the iteration yields the verb keys, so in the fixed verb order GET, POST, PUT, DELETE,
OPTIONS, HEAD, PATCH, TRACE when the verb map is walked in that order; and the
sequences `GetOperations` emits under any two iteration orders of the maps are
permutations of one another. -/
theorem GetOperations_order (ord ord' : MapOrder) (spec : OpenAPISpec)
    (path : String) (pathItem : PathItem) :
    (GetOperations ord spec).Perm (GetOperations ord' spec) ∧
    (extractOperations ord path pathItem).map (fun info => info.Method)
      = ((ord.methods path (methodsOf pathItem)).filter (fun e => e.2.isSome)).map
          (fun e => e.1) ∧
    ((extractOperations MapOrder.asWritten path pathItem).map
      (fun info => info.Method)).Sublist verbs := by
  refine ⟨GetOperations_perm ord ord' spec, ?_, ?_⟩
  · rw [extractOperations_eq, map_Method_filterMap_infoOf]
  · rw [extractOperations_eq, map_Method_filterMap_infoOf]
    have h : verbs = (methodsOf pathItem).map (fun e => e.1) := rfl
    rw [h]
    exact (List.filter_sublist _).map _

/-- C1 (counterexample): on a path item with a GET and a POST operation, walking the
verb map back to front emits POST before GET, and the catalog of the document differs
from the one emitted when the maps are walked as written. -/
theorem GetOperations_order_counterexample :
    (extractOperations MapOrder.reversed "/pets"
        { emptyPathItem with Get := some bareOperation, Post := some bareOperation }).map
      (fun info => info.Method) = ["POST", "GET"] ∧
    GetOperations MapOrder.reversed twoVerbDocument
      ≠ GetOperations MapOrder.asWritten twoVerbDocument := by
  decide

/-! ## Identifier synthesis -/

theorem trimRightByte_spec (s : List Char) (c : Char) :
    ∃ b : Nat, s = strings.trimRightByte s c ++ List.replicate b c ∧
      (strings.trimRightByte s c).getLast? ≠ some c := by
  induction s using List.reverseRecOn with
  | nil => exact ⟨0, by simp [strings.trimRightByte]⟩
  | append_singleton l x ih =>
    obtain ⟨b, hb, hlast⟩ := ih
    by_cases hx : x = c
    · subst hx
      refine ⟨b + 1, ?_, ?_⟩
      · have : strings.trimRightByte (l ++ [x]) x = strings.trimRightByte l x := by
          simp [strings.trimRightByte, List.rdropWhile_concat]
        rw [this, List.replicate_succ', ← List.append_assoc, ← hb]
      · have : strings.trimRightByte (l ++ [x]) x = strings.trimRightByte l x := by
          simp [strings.trimRightByte, List.rdropWhile_concat]
        rw [this]; exact hlast
    · have : strings.trimRightByte (l ++ [x]) c = l ++ [x] := by
        simp [strings.trimRightByte, List.rdropWhile_concat, hx]
      refine ⟨0, by simp [this], ?_⟩
      rw [this]; simp [hx]

theorem trimLeftByte_spec (s : List Char) (c : Char) :
    ∃ a : Nat, s = List.replicate a c ++ strings.trimLeftByte s c ∧
      (strings.trimLeftByte s c).head? ≠ some c ∧
      (s.getLast? ≠ some c → (strings.trimLeftByte s c).getLast? ≠ some c) := by
  induction s with
  | nil => exact ⟨0, by simp [strings.trimLeftByte]⟩
  | cons x l ih =>
    obtain ⟨a, ha, hhead, hlast⟩ := ih
    by_cases hx : x = c
    · subst hx
      have e : strings.trimLeftByte (x :: l) x = strings.trimLeftByte l x := by
        simp [strings.trimLeftByte, List.dropWhile_cons]
      refine ⟨a + 1, ?_, ?_, ?_⟩
      · rw [e, List.replicate_succ, List.cons_append, ← ha]
      · rw [e]; exact hhead
      · rw [e]
        intro h
        apply hlast
        cases l with
        | nil => simp
        | cons y l => simpa [List.getLast?_cons_cons] using h
    · have e : strings.trimLeftByte (x :: l) c = x :: l := by
        simp [strings.trimLeftByte, List.dropWhile_cons, hx]
      refine ⟨0, by simp [e], ?_, ?_⟩
      · rw [e]; simp [hx]
      · rw [e]; exact id

theorem replaceScan_char (o n : Char) (s : List Char) :
    strings.replaceScan [o] [n] 0 s = s.map (fun c => if c = o then n else c) := by
  induction s with
  | nil => rfl
  | cons c cs ih =>
    by_cases h : c = o
    · subst h; simp [strings.replaceScan, List.isPrefixOf, ih]
    · have h' : ¬ o = c := fun e => h e.symm
      simp [strings.replaceScan, List.isPrefixOf, ih, h, h']

/-- The synthesized identifier, spelled out: the path is a run of slashes, a core `t`
that neither starts nor ends with a slash, and a run of slashes; the identifier is
the lower-cased verb, an underscore, and `t` with each slash turned into an
underscore. -/
theorem synthesizedID_spec (method path : String) :
    ∃ (a b : Nat) (t : List Char),
      path.data = List.replicate a '/' ++ t ++ List.replicate b '/' ∧
      t.head? ≠ some '/' ∧ t.getLast? ≠ some '/' ∧
      synthesizedID method path
        = strings.ToLower method ++ "_" ++
            String.mk (t.map (fun c => if c = '/' then '_' else c)) := by
  obtain ⟨b, hb, hlast⟩ := trimRightByte_spec path.data '/'
  obtain ⟨a, ha, hhead, hl⟩ := trimLeftByte_spec (strings.trimRightByte path.data '/') '/'
  refine ⟨a, b, strings.trimLeftByte (strings.trimRightByte path.data '/') '/', ?_,
    hhead, hl hlast, ?_⟩
  · rw [← ha, ← hb]
  · have : strings.ReplaceAll (strings.Trim path '/') "/" "_"
        = String.mk ((strings.trimLeftByte (strings.trimRightByte path.data '/') '/').map
            (fun c => if c = '/' then '_' else c)) := by
      have h1 : ("/" : String).data = ['/'] := rfl
      have h2 : ("_" : String).data = ['_'] := rfl
      simp only [strings.ReplaceAll, h1, h2, strings.Trim]
      rw [if_neg (by simp), replaceScan_char]
    rw [synthesizedID, this]

theorem mem_extractOperations {ord : MapOrder} {path : String} {pathItem : PathItem}
    {info : OperationInfo} :
    info ∈ extractOperations ord path pathItem ↔
      ∃ e ∈ methodsOf pathItem, infoOf path e = some info := by
  rw [extractOperations_eq, List.mem_filterMap]
  constructor
  · rintro ⟨e, he, h⟩; exact ⟨e, (ord.methods_perm path _).mem_iff.1 he, h⟩
  · rintro ⟨e, he, h⟩; exact ⟨e, (ord.methods_perm path _).mem_iff.2 he, h⟩

theorem slot_of_mem_extractOperations {ord : MapOrder} {path : String}
    {pathItem : PathItem} {info : OperationInfo}
    (h : info ∈ extractOperations ord path pathItem) :
    (info.Method, some info.Operation) ∈ methodsOf pathItem ∧ info.Path = path := by
  obtain ⟨⟨verb, slot⟩, he, hinfo⟩ := mem_extractOperations.1 h
  cases slot with
  | none => simp [infoOf] at hinfo
  | some operation =>
    simp only [infoOf, Option.map_some', Option.some.injEq] at hinfo
    subst hinfo
    exact ⟨he, rfl⟩

/-- C2: every catalog entry emitted for a path item comes from a verb slot holding an
operation, carries that path, verb and operation, and its identifier is the
operation's `operationId` verbatim when that is non-empty, and otherwise
`lower(verb) ++ "_" ++ p`, where `p` is the path stripped of all leading and trailing
slashes with every remaining slash replaced by an underscore. -/
theorem extractOperations_operationID (ord : MapOrder) (path : String)
    (pathItem : PathItem) (info : OperationInfo)
    (h : info ∈ extractOperations ord path pathItem) :
    (info.Method, some info.Operation) ∈ methodsOf pathItem ∧ info.Path = path ∧
    (info.Operation.OperationID ≠ "" → info.OperationID = info.Operation.OperationID) ∧
    (info.Operation.OperationID = "" →
      ∃ (a b : Nat) (t : List Char),
        path.data = List.replicate a '/' ++ t ++ List.replicate b '/' ∧
        t.head? ≠ some '/' ∧ t.getLast? ≠ some '/' ∧
        info.OperationID
          = strings.ToLower info.Method ++ "_" ++
              String.mk (t.map (fun c => if c = '/' then '_' else c))) := by
  obtain ⟨⟨verb, slot⟩, he, hinfo⟩ := mem_extractOperations.1 h
  cases slot with
  | none => simp [infoOf] at hinfo
  | some operation =>
    simp only [infoOf, Option.map_some', Option.some.injEq] at hinfo
    subst hinfo
    refine ⟨he, rfl, ?_, ?_⟩
    · intro hne; simp [hne]
    · intro heq
      have heq' : operation.OperationID = "" := heq
      rw [if_pos heq']
      exact synthesizedID_spec verb path

/-- C2 (witness): the GET entry of the path `/pets/` with no `operationId`. -/
theorem extractOperations_operationID_witness :
    ({ Path := "/pets/", Method := "GET", Operation := bareOperation,
       OperationID := "get_pets" } : OperationInfo)
      ∈ extractOperations MapOrder.reversed "/pets/"
          { emptyPathItem with Get := some bareOperation } ∧
    (bareOperation.OperationID = "" →
      ∃ (a b : Nat) (t : List Char),
        ("/pets/" : String).data = List.replicate a '/' ++ t ++ List.replicate b '/' ∧
        t.head? ≠ some '/' ∧ t.getLast? ≠ some '/' ∧
        "get_pets" = strings.ToLower "GET" ++ "_" ++
              String.mk (t.map (fun c => if c = '/' then '_' else c))) :=
  ⟨by decide,
   (extractOperations_operationID MapOrder.reversed "/pets/"
      { emptyPathItem with Get := some bareOperation }
      { Path := "/pets/", Method := "GET", Operation := bareOperation,
        OperationID := "get_pets" } (by decide)).2.2.2⟩

/-! ## Tool generation -/

theorem generateTools_eq (ord : MapOrder) (spec : OpenAPISpec) :
    generateTools ord spec = (GetOperations ord spec).map toolOf := by
  have h : ∀ (l : List OperationInfo) (acc : List Tool),
      l.foldl (fun tools op => tools ++ [toolOf op]) acc = acc ++ l.map toolOf := by
    intro l
    induction l with
    | nil => simp
    | cons a l ih => intro acc; simp [ih]
  simpa [generateTools, toolOf] using h (GetOperations ord spec) []

theorem synthesizedID_ne_empty (method path : String) : synthesizedID method path ≠ "" := by
  intro h
  have := congrArg String.length h
  simp [synthesizedID, String.length_append] at this
  exact absurd this.1.2 (by decide)

theorem mem_GetOperations {ord : MapOrder} {spec : OpenAPISpec} {info : OperationInfo} :
    info ∈ GetOperations ord spec ↔
      ∃ e ∈ spec.Paths, info ∈ extractOperations ord e.1 e.2 := by
  rw [GetOperations_eq, List.mem_flatMap]
  constructor
  · rintro ⟨e, he, h⟩; exact ⟨e, (ord.paths_perm _).mem_iff.1 he, h⟩
  · rintro ⟨e, he, h⟩; exact ⟨e, (ord.paths_perm _).mem_iff.2 he, h⟩

theorem operationID_ne_empty {ord : MapOrder} {spec : OpenAPISpec} {info : OperationInfo}
    (h : info ∈ GetOperations ord spec) : info.OperationID ≠ "" := by
  obtain ⟨e, _, he⟩ := mem_GetOperations.1 h
  obtain ⟨⟨verb, slot⟩, _, hinfo⟩ := mem_extractOperations.1 he
  cases slot with
  | none => simp [infoOf] at hinfo
  | some operation =>
    simp only [infoOf, Option.map_some', Option.some.injEq] at hinfo
    subst hinfo
    by_cases hid : operation.OperationID = ""
    · simpa [hid] using synthesizedID_ne_empty verb e.1
    · simp [hid]

theorem generateTools_names (ord : MapOrder) (spec : OpenAPISpec) :
    (generateTools ord spec).map (fun t => t.Name)
      = (GetOperations ord spec).map (fun info => info.OperationID) := by
  rw [generateTools_eq, List.map_map]
  apply List.map_congr_left
  intro info h
  simp [toolOf, generateToolName, operationID_ne_empty h]

theorem GetOperations_petDocument (ord : MapOrder) :
    GetOperations ord petDocument
      = [{ Path := "/pets/\x7bid\x7d", Method := "GET", Operation := petOperation,
           OperationID := "get_pets_\x7bid\x7d" }] := by
  have hp : ord.paths petDocument.Paths = petDocument.Paths :=
    List.perm_singleton.1 (ord.paths_perm _)
  rw [GetOperations_eq, hp]
  simp only [petDocument, List.flatMap_cons, List.flatMap_nil, List.append_nil]
  apply List.perm_singleton.1
  exact (extractOperations_perm ord MapOrder.asWritten _ _).trans (by decide)

/-- C3 (amended): for the document whose only path is `/pets/{id}` with a GET
operation that has a required path parameter `id` and no `operationId`, the catalog
contains exactly one tool, whatever the iteration order of the maps, and its name is
`get_pets_{id}`: the braces of the path are kept. -/
theorem generateTools_petDocument (ord : MapOrder) :
    (generateTools ord petDocument).map (fun t => t.Name) = ["get_pets_\x7bid\x7d"] := by
  rw [generateTools_names, GetOperations_petDocument]
  rfl

/-- C3 (counterexample): the one tool of the pet document is not named
`get_pets_id`. -/
theorem generateTools_petDocument_counterexample :
    (generateTools MapOrder.asWritten petDocument).map (fun t => t.Name)
      ≠ ["get_pets_id"] := by
  decide

theorem NewServer_of_parsed (ord : MapOrder) (dec : Decoders) (file : FileRead)
    (source : String) (spec : OpenAPISpec) (hparse : ParseFile dec file source = .ok spec) :
    NewServer ord dec file source = .ok { tools := generateTools ord spec } := by
  unfold NewServer
  rw [hparse]

/-- C4 (amended): a document in which two catalog entries resolve to the same tool
name is not rejected by tool generation, which has no failure path: once the document
file has been parsed, `NewServer` returns the server whose tool list holds one tool per
catalog entry, in catalog order, each named by the resolved identifier of its entry.
So the tool names of a catalog that `generateTools` produces are pairwise distinct
exactly when the resolved identifiers of the catalog entries are. -/
theorem NewServer_tools (ord : MapOrder) (dec : Decoders) (file : FileRead)
    (source : String) (spec : OpenAPISpec) :
    (ParseFile dec file source = .ok spec →
      NewServer ord dec file source = .ok { tools := generateTools ord spec }) ∧
    (generateTools ord spec).map (fun t => t.Name)
      = (GetOperations ord spec).map (fun info => info.OperationID) ∧
    (((generateTools ord spec).map (fun t => t.Name)).Nodup ↔
      ((GetOperations ord spec).map (fun info => info.OperationID)).Nodup) := by
  exact ⟨NewServer_of_parsed ord dec file source spec, generateTools_names ord spec,
    by rw [generateTools_names]⟩

/-- C4 (witness): the pet document, read from `pets.yaml`, gives the pet server. -/
theorem NewServer_tools_witness :
    ParseFile petDecoders (.content "") "pets.yaml" = .ok petDocument ∧
    NewServer MapOrder.asWritten petDecoders (.content "") "pets.yaml"
      = .ok { tools := generateTools MapOrder.asWritten petDocument } :=
  ⟨rfl,
   (NewServer_tools MapOrder.asWritten petDecoders (.content "") "pets.yaml" petDocument).1
      rfl⟩

/-- C4 (counterexample): a valid document whose paths `/a/b` and `/a_b` both carry a
GET operation is parsed and accepted, and the server holds two tools named
`get_a_b`. -/
theorem NewServer_collision_counterexample :
    ParseFile collidingDecoders (.content "") "api.json" = .ok collidingDocument ∧
    NewServer MapOrder.asWritten collidingDecoders (.content "") "api.json"
      = .ok { tools := generateTools MapOrder.asWritten collidingDocument } ∧
    (generateTools MapOrder.asWritten collidingDocument).map (fun t => t.Name)
      = ["get_a_b", "get_a_b"] ∧
    ¬ ((generateTools MapOrder.asWritten collidingDocument).map (fun t => t.Name)).Nodup := by
  refine ⟨rfl, rfl, by decide, by decide⟩

/-! ## One catalog entry per verb slot -/

theorem map_key_extractOperations (path : String) (pathItem : PathItem) :
    (extractOperations MapOrder.asWritten path pathItem).map
        (fun info => (info.Path, info.Method))
      = ((methodsOf pathItem).filter (fun e => e.2.isSome)).map (fun e => (path, e.1)) := by
  rw [extractOperations_eq]
  show ((methodsOf pathItem).filterMap (infoOf path)).map _ = _
  generalize methodsOf pathItem = l
  induction l with
  | nil => rfl
  | cons e l ih =>
    obtain ⟨verb, slot⟩ := e
    cases slot <;> simp [infoOf, List.filterMap_cons, List.filter_cons] <;>
      simpa [infoOf] using ih

theorem nodup_key_extractOperations (path : String) (pathItem : PathItem) :
    ((extractOperations MapOrder.asWritten path pathItem).map
        (fun info => (info.Path, info.Method))).Nodup := by
  rw [map_key_extractOperations]
  have hv : ((methodsOf pathItem).map (fun e => e.1)).Nodup := by
    show verbs.Nodup
    decide
  have hf : ((methodsOf pathItem).filter (fun e => e.2.isSome)).Nodup :=
    (List.Nodup.of_map _ hv).filter _
  refine List.Nodup.map_on ?_ hf
  intro x hx y hy hxy
  have hx' := List.mem_of_mem_filter hx
  have hy' := List.mem_of_mem_filter hy
  have h1 : x.1 = y.1 := (Prod.mk.inj hxy).2
  exact List.inj_on_of_nodup_map hv hx' hy' h1

theorem length_flatMap_eq {α β : Type} (f : α → List β) (l : List α) :
    (l.flatMap f).length = (l.map (fun a => (f a).length)).sum := by
  induction l with
  | nil => rfl
  | cons a l ih => simp [ih]

theorem length_extractOperations (ord : MapOrder) (path : String) (pathItem : PathItem) :
    (extractOperations ord path pathItem).length
      = ((methodsOf pathItem).filter (fun e => e.2.isSome)).length := by
  rw [(extractOperations_perm ord MapOrder.asWritten path pathItem).length_eq,
    ← List.length_map _ (fun info : OperationInfo => (info.Path, info.Method)),
    map_key_extractOperations, List.length_map]

theorem GetOperations_asWritten (spec : OpenAPISpec) :
    GetOperations MapOrder.asWritten spec
      = spec.Paths.flatMap (fun e => extractOperations MapOrder.asWritten e.1 e.2) := by
  rw [GetOperations_eq]; rfl

theorem mem_methodsOf (pathItem : PathItem) (verb : String) (slot : Option Operation) :
    (verb, slot) ∈ methodsOf pathItem ↔
      (verb = "GET" ∧ slot = pathItem.Get) ∨ (verb = "POST" ∧ slot = pathItem.Post) ∨
      (verb = "PUT" ∧ slot = pathItem.Put) ∨ (verb = "DELETE" ∧ slot = pathItem.Delete) ∨
      (verb = "OPTIONS" ∧ slot = pathItem.Options) ∨ (verb = "HEAD" ∧ slot = pathItem.Head) ∨
      (verb = "PATCH" ∧ slot = pathItem.Patch) ∨ (verb = "TRACE" ∧ slot = pathItem.Trace) := by
  simp [methodsOf]

theorem slots_of_methodsOf (pathItem : PathItem) :
    ((methodsOf pathItem).filter (fun slot => slot.2.isSome)).length
      = ([pathItem.Get, pathItem.Post, pathItem.Put, pathItem.Delete, pathItem.Options,
          pathItem.Head, pathItem.Patch, pathItem.Trace].filter Option.isSome).length := by
  have h : [pathItem.Get, pathItem.Post, pathItem.Put, pathItem.Delete, pathItem.Options,
      pathItem.Head, pathItem.Patch, pathItem.Trace]
      = (methodsOf pathItem).map (fun slot => slot.2) := rfl
  rw [h, List.filter_map, List.length_map]
  rfl

theorem entry_of_slot (ord : MapOrder) (spec : OpenAPISpec) (path : String)
    (pathItem : PathItem) (verb : String) (operation : Operation)
    (he : (path, pathItem) ∈ spec.Paths)
    (hslot : (verb, some operation) ∈ methodsOf pathItem) :
    ∃ info ∈ GetOperations ord spec,
      info.Path = path ∧ info.Method = verb ∧ info.Operation = operation :=
  ⟨_, mem_GetOperations.2 ⟨(path, pathItem), he,
    mem_extractOperations.2 ⟨(verb, some operation), hslot, rfl⟩⟩, rfl, rfl, rfl⟩

/-- C5: for a document whose path map has distinct keys, and every iteration order of
the maps, `GetOperations` returns exactly one entry per (path, verb) pair whose verb
slot holds an operation. The length of the result is the total number of non-nil verb
fields over all path items. Every entry carries a path of the document and, for one of
the eight verbs, the upper-case name of the verb and the operation held by the field of
that verb in the path item. Every non-nil field `Get`, `Post`, `Put`, `Delete`,
`Options`, `Head`, `Patch`, `Trace` has its entry under the name `GET`, `POST`, `PUT`,
`DELETE`, `OPTIONS`, `HEAD`, `PATCH`, `TRACE`. No (path, verb) pair occurs twice. -/
theorem GetOperations_one_per_slot (ord : MapOrder) (spec : OpenAPISpec)
    (hkeys : (spec.Paths.map (fun e => e.1)).Nodup) :
    (GetOperations ord spec).length
      = (spec.Paths.map
          (fun e => ([e.2.Get, e.2.Post, e.2.Put, e.2.Delete, e.2.Options, e.2.Head,
                      e.2.Patch, e.2.Trace].filter Option.isSome).length)).sum ∧
    (∀ info ∈ GetOperations ord spec,
      info.Method ∈ verbs ∧
      ∃ pathItem, (info.Path, pathItem) ∈ spec.Paths ∧
        ((info.Method = "GET" ∧ pathItem.Get = some info.Operation) ∨
         (info.Method = "POST" ∧ pathItem.Post = some info.Operation) ∨
         (info.Method = "PUT" ∧ pathItem.Put = some info.Operation) ∨
         (info.Method = "DELETE" ∧ pathItem.Delete = some info.Operation) ∨
         (info.Method = "OPTIONS" ∧ pathItem.Options = some info.Operation) ∨
         (info.Method = "HEAD" ∧ pathItem.Head = some info.Operation) ∨
         (info.Method = "PATCH" ∧ pathItem.Patch = some info.Operation) ∨
         (info.Method = "TRACE" ∧ pathItem.Trace = some info.Operation))) ∧
    (∀ path pathItem operation, (path, pathItem) ∈ spec.Paths →
      (pathItem.Get = some operation → ∃ info ∈ GetOperations ord spec,
        info.Path = path ∧ info.Method = "GET" ∧ info.Operation = operation) ∧
      (pathItem.Post = some operation → ∃ info ∈ GetOperations ord spec,
        info.Path = path ∧ info.Method = "POST" ∧ info.Operation = operation) ∧
      (pathItem.Put = some operation → ∃ info ∈ GetOperations ord spec,
        info.Path = path ∧ info.Method = "PUT" ∧ info.Operation = operation) ∧
      (pathItem.Delete = some operation → ∃ info ∈ GetOperations ord spec,
        info.Path = path ∧ info.Method = "DELETE" ∧ info.Operation = operation) ∧
      (pathItem.Options = some operation → ∃ info ∈ GetOperations ord spec,
        info.Path = path ∧ info.Method = "OPTIONS" ∧ info.Operation = operation) ∧
      (pathItem.Head = some operation → ∃ info ∈ GetOperations ord spec,
        info.Path = path ∧ info.Method = "HEAD" ∧ info.Operation = operation) ∧
      (pathItem.Patch = some operation → ∃ info ∈ GetOperations ord spec,
        info.Path = path ∧ info.Method = "PATCH" ∧ info.Operation = operation) ∧
      (pathItem.Trace = some operation → ∃ info ∈ GetOperations ord spec,
        info.Path = path ∧ info.Method = "TRACE" ∧ info.Operation = operation)) ∧
    ((GetOperations ord spec).map (fun info => (info.Path, info.Method))).Nodup := by
  refine ⟨?_, ?_, ?_, ?_⟩
  · rw [(GetOperations_perm ord MapOrder.asWritten spec).length_eq, GetOperations_asWritten,
      length_flatMap_eq]
    congr 1
    apply List.map_congr_left
    intro e _
    rw [length_extractOperations, slots_of_methodsOf]
  · intro info hinfo
    obtain ⟨⟨path, pathItem⟩, he, hmem⟩ := mem_GetOperations.1 hinfo
    obtain ⟨hslot, hpath⟩ := slot_of_mem_extractOperations hmem
    refine ⟨?_, pathItem, by rw [hpath]; exact he, ?_⟩
    · have : info.Method ∈ (methodsOf pathItem).map (fun e => e.1) :=
        List.mem_map.2 ⟨_, hslot, rfl⟩
      exact this
    · have h := (mem_methodsOf pathItem info.Method (some info.Operation)).1 hslot
      rcases h with ⟨h1, h2⟩ | ⟨h1, h2⟩ | ⟨h1, h2⟩ | ⟨h1, h2⟩ | ⟨h1, h2⟩ | ⟨h1, h2⟩ |
        ⟨h1, h2⟩ | ⟨h1, h2⟩
      · exact Or.inl ⟨h1, h2.symm⟩
      · exact Or.inr (Or.inl ⟨h1, h2.symm⟩)
      · exact Or.inr (Or.inr (Or.inl ⟨h1, h2.symm⟩))
      · exact Or.inr (Or.inr (Or.inr (Or.inl ⟨h1, h2.symm⟩)))
      · exact Or.inr (Or.inr (Or.inr (Or.inr (Or.inl ⟨h1, h2.symm⟩))))
      · exact Or.inr (Or.inr (Or.inr (Or.inr (Or.inr (Or.inl ⟨h1, h2.symm⟩)))))
      · exact Or.inr (Or.inr (Or.inr (Or.inr (Or.inr (Or.inr (Or.inl ⟨h1, h2.symm⟩))))))
      · exact Or.inr (Or.inr (Or.inr (Or.inr (Or.inr (Or.inr (Or.inr ⟨h1, h2.symm⟩))))))
  · intro path pathItem operation he
    refine ⟨?_, ?_, ?_, ?_, ?_, ?_, ?_, ?_⟩ <;> intro hfield <;>
      refine entry_of_slot ord spec path pathItem _ operation he ?_ <;>
      rw [mem_methodsOf] <;> simp [hfield]
  · refine ((GetOperations_perm ord MapOrder.asWritten spec).map _).nodup_iff.2 ?_
    rw [GetOperations_asWritten, List.map_flatMap]
    refine List.nodup_flatMap.2 ⟨fun e _ => nodup_key_extractOperations e.1 e.2, ?_⟩
    have hp : spec.Paths.Pairwise (fun a b => a.1 ≠ b.1) := List.pairwise_map.1 hkeys
    refine hp.imp ?_
    intro a b hab
    show List.Disjoint
      ((extractOperations MapOrder.asWritten a.1 a.2).map (fun info => (info.Path, info.Method)))
      ((extractOperations MapOrder.asWritten b.1 b.2).map (fun info => (info.Path, info.Method)))
    rw [map_key_extractOperations, map_key_extractOperations]
    intro k hka hkb
    obtain ⟨x, _, rfl⟩ := List.mem_map.1 hka
    obtain ⟨y, _, hy⟩ := List.mem_map.1 hkb
    exact hab (Prod.mk.inj hy).1.symm

/-- C5 (witness): the document with a GET and a POST operation under `/pets`, walked
back to front: two entries, one for the field `Post` under the name `POST`, and no
(path, verb) pair twice. -/
theorem GetOperations_one_per_slot_witness :
    (twoVerbDocument.Paths.map (fun e => e.1)).Nodup ∧
    (GetOperations MapOrder.reversed twoVerbDocument).length = 2 ∧
    (∃ info ∈ GetOperations MapOrder.reversed twoVerbDocument,
      info.Path = "/pets" ∧ info.Method = "POST" ∧ info.Operation = bareOperation) ∧
    ((GetOperations MapOrder.reversed twoVerbDocument).map
      (fun info => (info.Path, info.Method))).Nodup :=
  ⟨by decide,
   (GetOperations_one_per_slot MapOrder.reversed twoVerbDocument (by decide)).1,
   ((GetOperations_one_per_slot MapOrder.reversed twoVerbDocument (by decide)).2.2.1
      "/pets" { emptyPathItem with Get := some bareOperation, Post := some bareOperation }
      bareOperation (by decide)).2.1 rfl,
   (GetOperations_one_per_slot MapOrder.reversed twoVerbDocument (by decide)).2.2.2⟩

/-! ## Dispatch -/

/-- C6: `tools/call` checks its parameters in this order. If `params` is not an
object (an absent or null `params` included) the response is the error -32602
"Invalid params"; otherwise, if `params` has no key `name` or its value is not a
string, the error is -32602 "Missing tool name"; otherwise, if no tool of the catalog
has that name, the error is -32602 "Tool not found". In all three cases no request
is handed to the upstream requester. -/
theorem handleToolsCall_errors (env : Env) (s : Server) (request : MCPRequest) :
    ((∀ params, request.Params ≠ .map params) →
      handleToolsCall env s request
        = (errorResponse request.ID (-32602) "Invalid params", [])) ∧
    (∀ params, request.Params = .map params →
      (∀ name, mapGet params "name" ≠ some (.string name)) →
      handleToolsCall env s request
        = (errorResponse request.ID (-32602) "Missing tool name", [])) ∧
    (∀ params name, request.Params = .map params →
      mapGet params "name" = some (.string name) →
      (∀ tool ∈ s.tools, tool.Name ≠ name) →
      handleToolsCall env s request
        = (errorResponse request.ID (-32602) "Tool not found", [])) := by
  refine ⟨?_, ?_, ?_⟩
  · intro h
    unfold handleToolsCall
    split
    · rename_i params hp
      exact absurd hp (h params)
    · rfl
  · intro params hp hname
    have hstep : ∀ o : Option Any, (∀ name, o ≠ some (.string name)) →
        (match o with
          | some (.string toolName) =>
            match s.tools.find? (fun t => t.Name == toolName) with
            | some tool =>
              (callResponse request.ID (executeTool env tool (argumentsOf params)).1,
               (executeTool env tool (argumentsOf params)).2)
            | none => (errorResponse request.ID (-32602) "Tool not found", [])
          | _ => (errorResponse request.ID (-32602) "Missing tool name", []))
          = (errorResponse request.ID (-32602) "Missing tool name", []) := by
      intro o ho
      split
      · rename_i toolName
        exact absurd rfl (ho toolName)
      · rfl
    unfold handleToolsCall
    rw [hp]
    exact hstep _ hname
  · intro params name hp hname hnone
    have hfind : s.tools.find? (fun t => t.Name == name) = none := by
      rw [List.find?_eq_none]
      intro t ht
      simpa using hnone t ht
    unfold handleToolsCall
    rw [hp]
    simp only [hname, hfind]

/-- C6 (witness): on the pet server, a call with no `params`, a call whose `name` is
a number, and a call naming the unknown tool `get_pets_id`. -/
theorem handleToolsCall_errors_witness :
    handleToolsCall onlineEnv petServer
        { JSONRPC := "2.0", ID := .float64 1, Method := "tools/call", Params := .nil }
      = (errorResponse (.float64 1) (-32602) "Invalid params", []) ∧
    handleToolsCall onlineEnv petServer
        { JSONRPC := "2.0", ID := .float64 1, Method := "tools/call",
          Params := .map [("name", .float64 7)] }
      = (errorResponse (.float64 1) (-32602) "Missing tool name", []) ∧
    handleToolsCall onlineEnv petServer
        { JSONRPC := "2.0", ID := .float64 1, Method := "tools/call",
          Params := .map [("name", .string "get_pets_id")] }
      = (errorResponse (.float64 1) (-32602) "Tool not found", []) :=
  ⟨(handleToolsCall_errors onlineEnv petServer
      { JSONRPC := "2.0", ID := .float64 1, Method := "tools/call", Params := .nil }).1
      (fun _ h => by cases h),
   (handleToolsCall_errors onlineEnv petServer
      { JSONRPC := "2.0", ID := .float64 1, Method := "tools/call",
        Params := .map [("name", .float64 7)] }).2.1 _ rfl
      (fun _ h => by simp [mapGet, List.lookup] at h),
   (handleToolsCall_errors onlineEnv petServer
      { JSONRPC := "2.0", ID := .float64 1, Method := "tools/call",
        Params := .map [("name", .string "get_pets_id")] }).2.2 _ "get_pets_id" rfl rfl
      (by decide)⟩

/-- C7: a request whose method is not exactly `initialize`, `tools/list` or
`tools/call` gets, for every id, a response with no result, error code -32601,
message "Method not found" and the id of the request; nothing is sent upstream. -/
theorem handleRequest_unknown_method (env : Env) (s : Server) (request : MCPRequest)
    (h1 : request.Method ≠ "initialize") (h2 : request.Method ≠ "tools/list")
    (h3 : request.Method ≠ "tools/call") :
    handleRequest env s request
      = ({ JSONRPC := "2.0", ID := request.ID, Result := .nil,
           Error := some { Code := -32601, Message := "Method not found", Data := .nil } },
         []) := by
  simp [handleRequest, h1, h2, h3, errorResponse]

/-- C7 (witness): the method `Tools/List`, differing from a routed one only in case,
with a null id. -/
theorem handleRequest_unknown_method_witness :
    handleRequest onlineEnv petServer
        { JSONRPC := "2.0", ID := .nil, Method := "Tools/List", Params := .nil }
      = ({ JSONRPC := "2.0", ID := .nil, Result := .nil,
           Error := some { Code := -32601, Message := "Method not found", Data := .nil } },
         []) :=
  handleRequest_unknown_method onlineEnv petServer
    { JSONRPC := "2.0", ID := .nil, Method := "Tools/List", Params := .nil }
    (by decide) (by decide) (by decide)

theorem handleToolsCall_envelope (env : Env) (s : Server) (request : MCPRequest) :
    (handleToolsCall env s request).1.JSONRPC = "2.0" ∧
    (handleToolsCall env s request).1.ID = request.ID ∧
    (((handleToolsCall env s request).1.Result ≠ .nil ∧
        (handleToolsCall env s request).1.Error = none) ∨
     ((handleToolsCall env s request).1.Result = .nil ∧
        (handleToolsCall env s request).1.Error ≠ none)) := by
  unfold handleToolsCall
  split
  · split
    · split
      · simp only
        cases (executeTool env _ _).1 <;> simp [callResponse, errorResponse]
      · simp [errorResponse]
    · simp [errorResponse]
  · simp [errorResponse]

/-- C8: for every request and every behaviour of the upstream, the response of
`handleRequest` has `jsonrpc` equal to "2.0", the id of the request, and exactly one
of result and error set. -/
theorem handleRequest_envelope (env : Env) (s : Server) (request : MCPRequest) :
    (handleRequest env s request).1.JSONRPC = "2.0" ∧
    (handleRequest env s request).1.ID = request.ID ∧
    (((handleRequest env s request).1.Result ≠ .nil ∧
        (handleRequest env s request).1.Error = none) ∨
     ((handleRequest env s request).1.Result = .nil ∧
        (handleRequest env s request).1.Error ≠ none)) := by
  unfold handleRequest
  split
  · simp [handleInitialize]
  · split
    · simp [handleToolsList]
    · split
      · exact handleToolsCall_envelope env s request
      · simp [errorResponse]

/-! ## Request binding -/

theorem foldl_bindStep_Path (env : Env) (arguments : List (String × Any))
    (params : List Parameter) (req : Request) :
    (params.foldl (bindStep env arguments) req).Path
      = (pathBindings env arguments params).foldl substitute req.Path := by
  induction params generalizing req with
  | nil => rfl
  | cons p ps ih =>
    rw [List.foldl_cons, ih]
    unfold pathBindings
    rw [List.filterMap_cons]
    cases hv : mapGet arguments p.Name with
    | none => simp [bindStep, hv]
    | some v =>
      by_cases hq : p.In = "query"
      · have hp : p.In ≠ "path" := by rw [hq]; decide
        simp [bindStep, hv, hq]
      · by_cases hh : p.In = "header"
        · have hp : p.In ≠ "path" := by rw [hh]; decide
          simp [bindStep, hv, hh]
        · by_cases hp : p.In = "path"
          · simp [bindStep, hv, hp, substitute]
          · simp [bindStep, hv, hq, hh, hp]

theorem bindRequest_Path_eq (env : Env) (tool : Tool) (arguments : List (String × Any)) :
    (bindRequest env tool arguments).Path
      = (tool.Operation.Operation.Parameters.foldl (bindStep env arguments)
          { Method := tool.Operation.Method, Path := tool.Operation.Path,
            Headers := [], Query := [], Body := .nil }).Path := by
  unfold bindRequest
  cases tool.Operation.Operation.RequestBody with
  | none => rfl
  | some body => cases mapGet arguments "body" <;> rfl

/-- C9 (amended): the declared parameters with `in = "path"` whose name is a key of
the arguments are applied one after another in declaration order: each replaces every
occurrence of `{name}` in the path as it stands after the earlier replacements by the
rendering of its argument, with no escaping, and no other parameter changes the path.
The tool for `/pets/{id}` called with `{"id": "7"}` is bound to the path `/pets/7`
with an empty query map. -/
theorem bindRequest_path (env : Env) (tool : Tool) (arguments : List (String × Any)) :
    (bindRequest env tool arguments).Path
      = (pathBindings env arguments tool.Operation.Operation.Parameters).foldl
          substitute tool.Operation.Path ∧
    (bindRequest env petTool [("id", .string "7")]).Path = "/pets/7" ∧
    (bindRequest env petTool [("id", .string "7")]).Query = [] := by
  refine ⟨?_, rfl, rfl⟩
  rw [bindRequest_Path_eq, foldl_bindStep_Path]

/-- C9 (counterexample): for the template `/{a}/{b}` and the arguments
`{"a": "{b}", "b": "x"}` the bound path is `/x/x`: the text put in for `{a}` is itself
replaced when `b` is applied, so the path is not the template with each placeholder
replaced by the rendering of its own argument, which is `/{b}/x`. -/
theorem bindRequest_path_counterexample :
    (bindRequest offlineEnv chainTool
        [("a", .string "\x7bb\x7d"), ("b", .string "x")]).Path = "/x/x" ∧
    (bindRequest offlineEnv chainTool
        [("a", .string "\x7bb\x7d"), ("b", .string "x")]).Path ≠ "/\x7bb\x7d/x" := by
  decide

theorem lookup_filter_ne {α : Type} (m : List (String × α)) (k k' : String) (h : k' ≠ k) :
    (m.filter (fun e => e.1 != k)).lookup k' = m.lookup k' := by
  induction m with
  | nil => rfl
  | cons e m ih =>
    obtain ⟨a, b⟩ := e
    by_cases hak : a = k
    · subst hak
      have h1 : ((a, b) :: m).filter (fun e => e.1 != a) = m.filter (fun e => e.1 != a) := by
        simp [List.filter_cons]
      have h2 : (k' == a) = false := by simpa using h
      rw [h1, ih, List.lookup_cons, h2]
    · have h1 : ((a, b) :: m).filter (fun e => e.1 != k)
          = (a, b) :: m.filter (fun e => e.1 != k) := by
        simp [List.filter_cons, hak]
      rw [h1, List.lookup_cons, List.lookup_cons, ih]

theorem mapGet_mapSet {α : Type} (m : List (String × α)) (k k' : String) (v : α) :
    mapGet (mapSet m k v) k' = if k' = k then some v else mapGet m k' := by
  unfold mapGet mapSet
  by_cases h : k' = k
  · subst h; simp [List.lookup_cons]
  · have h2 : (k' == k) = false := by simpa using h
    rw [List.lookup_cons, h2, if_neg h]
    exact lookup_filter_ne m k k' h

theorem foldl_bindStep_Query (env : Env) (arguments : List (String × Any))
    (params : List Parameter) (req : Request) (k : String) :
    mapGet (params.foldl (bindStep env arguments) req).Query k
      = if (∃ p ∈ params, p.In = "query" ∧ p.Name = k) ∧ (mapGet arguments k).isSome
        then (mapGet arguments k).map (sprintV env) else mapGet req.Query k := by
  induction params generalizing req with
  | nil => simp
  | cons p ps ih =>
    rw [List.foldl_cons, ih]
    have hstep : mapGet (bindStep env arguments req p).Query k
        = if (p.In = "query" ∧ p.Name = k) ∧ (mapGet arguments k).isSome
          then (mapGet arguments k).map (sprintV env) else mapGet req.Query k := by
      cases hv : mapGet arguments p.Name with
      | none =>
        have : ¬ ((p.In = "query" ∧ p.Name = k) ∧ (mapGet arguments k).isSome) := by
          rintro ⟨⟨_, rfl⟩, h⟩; simp [hv] at h
        simp [bindStep, hv, this]
      | some v =>
        by_cases hq : p.In = "query"
        · by_cases hk : p.Name = k
          · subst hk
            simp [bindStep, hv, hq, mapGet_mapSet]
          · have hk' : ¬ k = p.Name := fun e => hk e.symm
            simp [bindStep, hv, hq, hk, hk', mapGet_mapSet]
        · by_cases hh : p.In = "header"
          · simp [bindStep, hv, hq, hh]
          · by_cases hp : p.In = "path" <;> simp [bindStep, hv, hq, hh, hp]
    rw [hstep]
    by_cases h1 : (∃ q ∈ ps, q.In = "query" ∧ q.Name = k) ∧ (mapGet arguments k).isSome
    · have : (∃ q ∈ p :: ps, q.In = "query" ∧ q.Name = k) ∧ (mapGet arguments k).isSome := by
        obtain ⟨⟨q, hq, hq'⟩, h⟩ := h1
        exact ⟨⟨q, List.mem_cons_of_mem _ hq, hq'⟩, h⟩
      rw [if_pos h1, if_pos this]
    · rw [if_neg h1]
      by_cases h2 : (p.In = "query" ∧ p.Name = k) ∧ (mapGet arguments k).isSome
      · have : (∃ q ∈ p :: ps, q.In = "query" ∧ q.Name = k) ∧ (mapGet arguments k).isSome :=
          ⟨⟨p, List.mem_cons_self _ _, h2.1⟩, h2.2⟩
        rw [if_pos h2, if_pos this]
      · have : ¬ ((∃ q ∈ p :: ps, q.In = "query" ∧ q.Name = k) ∧
            (mapGet arguments k).isSome) := by
          rintro ⟨⟨q, hq, hq'⟩, h⟩
          rcases List.mem_cons.1 hq with rfl | hq
          · exact h2 ⟨hq', h⟩
          · exact h1 ⟨⟨q, hq, hq'⟩, h⟩
        rw [if_neg h2, if_neg this]

theorem foldl_bindStep_Headers (env : Env) (arguments : List (String × Any))
    (params : List Parameter) (req : Request) (k : String) :
    mapGet (params.foldl (bindStep env arguments) req).Headers k
      = if (∃ p ∈ params, p.In = "header" ∧ p.Name = k) ∧ (mapGet arguments k).isSome
        then (mapGet arguments k).map (sprintV env) else mapGet req.Headers k := by
  induction params generalizing req with
  | nil => simp
  | cons p ps ih =>
    rw [List.foldl_cons, ih]
    have hstep : mapGet (bindStep env arguments req p).Headers k
        = if (p.In = "header" ∧ p.Name = k) ∧ (mapGet arguments k).isSome
          then (mapGet arguments k).map (sprintV env) else mapGet req.Headers k := by
      cases hv : mapGet arguments p.Name with
      | none =>
        have : ¬ ((p.In = "header" ∧ p.Name = k) ∧ (mapGet arguments k).isSome) := by
          rintro ⟨⟨_, rfl⟩, h⟩; simp [hv] at h
        simp [bindStep, hv, this]
      | some v =>
        by_cases hq : p.In = "query"
        · have hh : p.In ≠ "header" := by rw [hq]; decide
          simp [bindStep, hv, hq, hh]
        · by_cases hh : p.In = "header"
          · by_cases hk : p.Name = k
            · subst hk
              simp [bindStep, hv, hh, mapGet_mapSet]
            · have hk' : ¬ k = p.Name := fun e => hk e.symm
              simp [bindStep, hv, hh, hk, hk', mapGet_mapSet]
          · by_cases hp : p.In = "path" <;> simp [bindStep, hv, hq, hh, hp]
    rw [hstep]
    by_cases h1 : (∃ q ∈ ps, q.In = "header" ∧ q.Name = k) ∧ (mapGet arguments k).isSome
    · have : (∃ q ∈ p :: ps, q.In = "header" ∧ q.Name = k) ∧ (mapGet arguments k).isSome := by
        obtain ⟨⟨q, hq, hq'⟩, h⟩ := h1
        exact ⟨⟨q, List.mem_cons_of_mem _ hq, hq'⟩, h⟩
      rw [if_pos h1, if_pos this]
    · rw [if_neg h1]
      by_cases h2 : (p.In = "header" ∧ p.Name = k) ∧ (mapGet arguments k).isSome
      · have : (∃ q ∈ p :: ps, q.In = "header" ∧ q.Name = k) ∧ (mapGet arguments k).isSome :=
          ⟨⟨p, List.mem_cons_self _ _, h2.1⟩, h2.2⟩
        rw [if_pos h2, if_pos this]
      · have : ¬ ((∃ q ∈ p :: ps, q.In = "header" ∧ q.Name = k) ∧
            (mapGet arguments k).isSome) := by
          rintro ⟨⟨q, hq, hq'⟩, h⟩
          rcases List.mem_cons.1 hq with rfl | hq
          · exact h2 ⟨hq', h⟩
          · exact h1 ⟨⟨q, hq, hq'⟩, h⟩
        rw [if_neg h2, if_neg this]

theorem foldl_bindStep_filter (env : Env) (arguments : List (String × Any))
    (params : List Parameter) (req : Request) :
    (params.filter (fun p => (mapGet arguments p.Name).isSome)).foldl
        (bindStep env arguments) req
      = params.foldl (bindStep env arguments) req := by
  induction params generalizing req with
  | nil => rfl
  | cons p ps ih =>
    cases hv : mapGet arguments p.Name with
    | none =>
      have : bindStep env arguments req p = req := by simp [bindStep, hv]
      rw [List.filter_cons, List.foldl_cons, this]
      simp [hv, ih]
    | some v =>
      rw [List.filter_cons]
      simp [hv, ih]

theorem bindRequest_Query_eq (env : Env) (tool : Tool) (arguments : List (String × Any)) :
    (bindRequest env tool arguments).Query
      = (tool.Operation.Operation.Parameters.foldl (bindStep env arguments)
          { Method := tool.Operation.Method, Path := tool.Operation.Path,
            Headers := [], Query := [], Body := .nil }).Query := by
  unfold bindRequest
  cases tool.Operation.Operation.RequestBody with
  | none => rfl
  | some body => cases mapGet arguments "body" <;> rfl

theorem bindRequest_Headers_eq (env : Env) (tool : Tool) (arguments : List (String × Any)) :
    (bindRequest env tool arguments).Headers
      = (tool.Operation.Operation.Parameters.foldl (bindStep env arguments)
          { Method := tool.Operation.Method, Path := tool.Operation.Path,
            Headers := [], Query := [], Body := .nil }).Headers := by
  unfold bindRequest
  cases tool.Operation.Operation.RequestBody with
  | none => rfl
  | some body => cases mapGet arguments "body" <;> rfl

/-- C10: the query map of the bound request holds exactly the declared parameters with
`in = "query"` whose name is a key of the arguments, each mapped to the rendering of
its argument, and the header map holds exactly those with `in = "header"`; dropping
from the declaration every parameter that has no argument, required or not, leaves the
bound request unchanged. Binding is a total function: it has no failure. -/
theorem bindRequest_query_headers (env : Env) (tool : Tool)
    (arguments : List (String × Any)) (k v : String) :
    (mapGet (bindRequest env tool arguments).Query k = some v ↔
      (∃ p ∈ tool.Operation.Operation.Parameters, p.In = "query" ∧ p.Name = k) ∧
      ∃ a, mapGet arguments k = some a ∧ v = sprintV env a) ∧
    (mapGet (bindRequest env tool arguments).Headers k = some v ↔
      (∃ p ∈ tool.Operation.Operation.Parameters, p.In = "header" ∧ p.Name = k) ∧
      ∃ a, mapGet arguments k = some a ∧ v = sprintV env a) ∧
    bindRequest env
        (withParameters tool (tool.Operation.Operation.Parameters.filter
          (fun p => (mapGet arguments p.Name).isSome))) arguments
      = bindRequest env tool arguments := by
  refine ⟨?_, ?_, ?_⟩
  · rw [bindRequest_Query_eq, foldl_bindStep_Query]
    by_cases hd : ∃ p ∈ tool.Operation.Operation.Parameters, p.In = "query" ∧ p.Name = k
    · cases ha : mapGet arguments k with
      | none => simp [hd, mapGet]
      | some a =>
        rw [if_pos ⟨hd, rfl⟩]
        constructor
        · intro h
          exact ⟨hd, a, rfl, (Option.some.inj h).symm⟩
        · rintro ⟨_, a', ha', hv⟩
          cases ha'
          rw [hv]; rfl
    · simp [hd, mapGet]
  · rw [bindRequest_Headers_eq, foldl_bindStep_Headers]
    by_cases hd : ∃ p ∈ tool.Operation.Operation.Parameters, p.In = "header" ∧ p.Name = k
    · cases ha : mapGet arguments k with
      | none => simp [hd, mapGet]
      | some a =>
        rw [if_pos ⟨hd, rfl⟩]
        constructor
        · intro h
          exact ⟨hd, a, rfl, (Option.some.inj h).symm⟩
        · rintro ⟨_, a', ha', hv⟩
          cases ha'
          rw [hv]; rfl
    · simp [hd, mapGet]
  · unfold bindRequest
    simp only [withParameters, foldl_bindStep_filter]

/-- The tool of the pet scenario is the tool the server generates from the pet
document. -/
theorem petServer_tools : petServer.tools = [petTool] := by
  decide

/-- The tool of the two-placeholder scenario is the tool generated from its document. -/
theorem chainDocument_tools :
    validateSpec chainDocument = .ok () ∧
    generateTools MapOrder.asWritten chainDocument = [chainTool] := by
  exact ⟨rfl, by decide⟩

/-- A required query parameter and a required path parameter without argument are
skipped: only the header that has an argument is bound. -/
theorem bindRequest_searchTool :
    (bindRequest offlineEnv searchTool [("X-Trace", .string "t1")]).Query = [] ∧
    (bindRequest offlineEnv searchTool [("X-Trace", .string "t1")]).Headers
      = [("X-Trace", "t1")] ∧
    (bindRequest offlineEnv searchTool [("X-Trace", .string "t1")]).Path
      = "/items/\x7bid\x7d" := by
  decide

/-! ## The request body -/

theorem foldl_bindStep_Body (env : Env) (arguments : List (String × Any))
    (params : List Parameter) (req : Request) :
    (params.foldl (bindStep env arguments) req).Body = req.Body := by
  induction params generalizing req with
  | nil => rfl
  | cons p ps ih =>
    rw [List.foldl_cons, ih]
    unfold bindStep
    cases mapGet arguments p.Name with
    | none => rfl
    | some v =>
      simp only
      split
      · rfl
      · split
        · rfl
        · split <;> rfl

theorem bindRequest_Body_eq (env : Env) (tool : Tool) (arguments : List (String × Any)) :
    (bindRequest env tool arguments).Body
      = match tool.Operation.Operation.RequestBody with
        | some _ => (mapGet arguments "body").getD .nil
        | none => .nil := by
  unfold bindRequest
  cases tool.Operation.Operation.RequestBody with
  | none => simp only [foldl_bindStep_Body]
  | some body =>
    cases mapGet arguments "body" <;> simp only [foldl_bindStep_Body, Option.getD]

/-- C11 (amended): the bound request carries a body (its `Body` is not nil) iff the
operation declares a RequestBody and the arguments hold a value other than null under
the key `body`, and then the body is exactly that value; a null under `body` leaves
the request without a body, as an absent key does. The request handed to the HTTP
client has a body exactly when the bound request has one. An operation with a required
RequestBody called without `body` is bound to a request with no body; binding is a
total function and does not fail. -/
theorem bindRequest_body (env : Env) (tool : Tool) (arguments : List (String × Any))
    (ord : RangeOrder) (cfg : Config) (marshal : Any → String) :
    ((bindRequest env tool arguments).Body ≠ .nil ↔
      tool.Operation.Operation.RequestBody.isSome ∧
      ∃ v, mapGet arguments "body" = some v ∧ v ≠ .nil) ∧
    (∀ v, tool.Operation.Operation.RequestBody.isSome → mapGet arguments "body" = some v →
      (bindRequest env tool arguments).Body = v) ∧
    ((prepareRequest ord cfg marshal (bindRequest env tool arguments)).Body.isSome ↔
      (bindRequest env tool arguments).Body ≠ .nil) ∧
    (bindRequest env uploadTool []).Body = .nil := by
  refine ⟨?_, ?_, ?_, rfl⟩
  · rw [bindRequest_Body_eq]
    cases tool.Operation.Operation.RequestBody with
    | none => simp
    | some body =>
      cases mapGet arguments "body" with
      | none => simp
      | some v => simp
  · intro v hrb hv
    rw [bindRequest_Body_eq]
    cases hb : tool.Operation.Operation.RequestBody with
    | none => simp [hb] at hrb
    | some body => simp [hv]
  · have h : ∀ r : Request, (prepareRequest ord cfg marshal r).Body.isSome ↔ r.Body ≠ .nil := by
      intro r
      have hb : (prepareRequest ord cfg marshal r).Body
          = match r.Body with
            | .nil => none
            | v => some (marshal v) := by
        unfold prepareRequest setAuthentication SetBasicAuth setHeaders
        simp only
        split_ifs <;> rfl
      rw [hb]
      cases r.Body <;> simp
    exact h _

/-- C11 (counterexample): for the operation with a required RequestBody, the arguments
`{"body": null}` have the key `body`, yet the bound request has no body. -/
theorem bindRequest_body_counterexample :
    uploadTool.Operation.Operation.RequestBody.isSome = true ∧
    (mapGet [("body", Any.nil)] "body").isSome = true ∧
    ¬ ((bindRequest offlineEnv uploadTool [("body", Any.nil)]).Body ≠ .nil) := by
  refine ⟨rfl, rfl, ?_⟩
  intro h
  exact h rfl

/-! ## URL assembly -/

theorem buildURL_empty_query (ord : RangeOrder) (cfg : Config) (path : String)
    (hpath : path ≠ "") :
    buildURL ord cfg path []
      = if (baseOf cfg).data.getLast? ≠ some '/' ∧ path.data.head? ≠ some '/'
        then baseOf cfg ++ "/" ++ path else baseOf cfg ++ path := by
  unfold buildURL baseOf
  simp only [List.length_nil, gt_iff_lt, lt_self_iff_false, if_false, if_pos hpath]
  split_ifs <;> rfl

/-- When the base does not end with a slash or the path does not start with one,
`buildURL` with an empty query joins base and path with exactly one slash. -/
theorem buildURL_one_slash (ord : RangeOrder) (cfg : Config) (path : String)
    (hpath : path ≠ "")
    (h : (baseOf cfg).data.getLast? ≠ some '/' ∨ path.data.head? ≠ some '/') :
    buildURL ord cfg path [] = joinedWithOneSlash (baseOf cfg) path := by
  rw [buildURL_empty_query ord cfg path hpath]
  apply String.ext
  by_cases hb : (baseOf cfg).data.getLast? = some '/'
  · have hp : path.data.head? ≠ some '/' := by
      rcases h with h | h
      · exact absurd hb h
      · exact h
    have hne : (baseOf cfg).data ≠ [] := by
      intro e; rw [e] at hb; simp at hb
    have hlast : (baseOf cfg).data = (baseOf cfg).data.dropLast ++ ['/'] := by
      have := List.dropLast_append_getLast hne
      rw [List.getLast?_eq_getLast _ hne] at hb
      rw [Option.some.inj hb] at this
      exact this.symm
    rw [if_neg (by simp [hb])]
    simp only [joinedWithOneSlash, withoutTrailingSlash, withoutLeadingSlash, if_pos hb,
      if_neg hp, String.data_append]
    conv_lhs => rw [hlast]
  · by_cases hp : path.data.head? = some '/'
    · have htail : path.data = '/' :: path.data.tail := by
        cases hd : path.data with
        | nil => rw [hd] at hp; simp at hp
        | cons c cs =>
          rw [hd] at hp
          simp only [List.head?_cons, Option.some.injEq] at hp
          rw [hp]; rfl
      rw [if_neg (by simp [hp])]
      simp only [joinedWithOneSlash, withoutTrailingSlash, withoutLeadingSlash, if_neg hb,
        if_pos hp, String.data_append]
      conv_lhs => rw [htail]
      simp
    · rw [if_pos ⟨hb, hp⟩]
      simp only [joinedWithOneSlash, withoutTrailingSlash, withoutLeadingSlash, if_neg hb,
        if_neg hp]

/-- C12 (failing input): with the base URL `http://api/` and the path `/pets`, both
carrying the slash, `buildURL` returns `http://api//pets`, not the join
`http://api/pets` with exactly one slash. -/
theorem buildURL_double_slash :
    buildURL RangeOrder.asWritten basicConfig "/pets" [] = "http://api//pets" ∧
    joinedWithOneSlash (baseOf basicConfig) "/pets" = "http://api/pets" ∧
    buildURL RangeOrder.asWritten basicConfig "/pets" []
      ≠ joinedWithOneSlash (baseOf basicConfig) "/pets" := by
  decide

/-! ## Authentication and headers -/

/-- The base64 model on the test vectors of RFC 4648 and on the credentials `u:p`. -/
theorem base64_vectors :
    base64.EncodeToString "" = "" ∧ base64.EncodeToString "f" = "Zg==" ∧
    base64.EncodeToString "fo" = "Zm8=" ∧ base64.EncodeToString "foo" = "Zm9v" ∧
    base64.EncodeToString "foob" = "Zm9vYg==" ∧ base64.EncodeToString "fooba" = "Zm9vYmE=" ∧
    base64.EncodeToString "foobar" = "Zm9vYmFy" ∧ base64.EncodeToString "u:p" = "dTpw" := by
  decide

theorem mapGet_headerSet (h : List (String × String)) (key value name : String) :
    mapGet (headerSet h key value) name
      = if name = textproto.CanonicalMIMEHeaderKey key then some value else mapGet h name := by
  unfold headerSet
  exact mapGet_mapSet h _ name value

/-- C13: with auth type `basic` and a non-empty username `u` and password `p`,
`setAuthentication` sets the `Authorization` header to `Basic ` followed by the base64
encoding of `u:p` and changes nothing else; with auth type `none` it returns the
request unchanged, whatever token, username, password and API key are configured. -/
theorem setAuthentication_basic_none (cfg : Config) (req : HTTPRequest) :
    (cfg.Auth.Type_ = "basic" → cfg.Auth.Username ≠ "" → cfg.Auth.Password ≠ "" →
      mapGet (setAuthentication cfg req).Header "Authorization"
        = some ("Basic " ++
            base64.EncodeToString (cfg.Auth.Username ++ ":" ++ cfg.Auth.Password)) ∧
      (∀ name, name ≠ "Authorization" →
        mapGet (setAuthentication cfg req).Header name = mapGet req.Header name) ∧
      (setAuthentication cfg req).Method = req.Method ∧
      (setAuthentication cfg req).URL = req.URL ∧
      (setAuthentication cfg req).Body = req.Body) ∧
    (cfg.Auth.Type_ = "none" → setAuthentication cfg req = req) := by
  have hcanon : textproto.CanonicalMIMEHeaderKey "Authorization" = "Authorization" := by
    decide
  constructor
  · intro ht hu hp
    have hne : cfg.Auth.Type_ ≠ "bearer" := by rw [ht]; decide
    have e : setAuthentication cfg req = SetBasicAuth req cfg.Auth.Username cfg.Auth.Password := by
      unfold setAuthentication
      rw [if_neg hne, if_pos ht, if_pos ⟨hu, hp⟩]
    rw [e]
    refine ⟨?_, ?_, rfl, rfl, rfl⟩
    · simp only [SetBasicAuth, mapGet_headerSet, hcanon, if_true]
    · intro name hname
      simp only [SetBasicAuth, mapGet_headerSet, hcanon, if_neg hname]
  · intro ht
    have h1 : cfg.Auth.Type_ ≠ "bearer" := by rw [ht]; decide
    have h2 : cfg.Auth.Type_ ≠ "basic" := by rw [ht]; decide
    have h3 : cfg.Auth.Type_ ≠ "apikey" := by rw [ht]; decide
    unfold setAuthentication
    rw [if_neg h1, if_neg h2, if_neg h3]

/-- C13 (witness): user `u` with password `p` gives `Authorization: Basic dTpw`; with
the type `none` and the same credentials the request keeps its empty header map. -/
theorem setAuthentication_basic_none_witness :
    mapGet (setAuthentication basicConfig (newHTTPRequest "GET" "http://api/pets" none)).Header
        "Authorization" = some "Basic dTpw" ∧
    setAuthentication noneConfig (newHTTPRequest "GET" "http://api/pets" none)
      = newHTTPRequest "GET" "http://api/pets" none :=
  ⟨((setAuthentication_basic_none basicConfig (newHTTPRequest "GET" "http://api/pets" none)).1
      rfl (by decide) (by decide)).1,
   (setAuthentication_basic_none noneConfig (newHTTPRequest "GET" "http://api/pets" none)).2
      rfl⟩

theorem upper_char_cases (c : Char) (h : c.isUpper = true) :
    ∃ n, 65 ≤ n ∧ n ≤ 90 ∧ c = Char.ofNat n := by
  refine ⟨c.toNat, ?_, ?_, (Char.ofNat_toNat c).symm⟩
  · simp only [Char.isUpper, Bool.and_eq_true, decide_eq_true_eq] at h
    exact h.1
  · simp only [Char.isUpper, Bool.and_eq_true, decide_eq_true_eq] at h
    exact h.2

theorem toLower_of_not_upper (c : Char) (h : c.isUpper = false) : c.toLower = c := by
  unfold Char.toLower
  simp only [Char.isUpper, Bool.and_eq_false_iff, decide_eq_false_iff_not] at h
  have : ¬ (c.toNat ≥ 65 ∧ c.toNat ≤ 90) := by
    rintro ⟨h1, h2⟩
    rcases h with h | h
    · exact h h1
    · exact h h2
  simp [this]

theorem canonicalStep_toLower (upper : Bool) (c : Char) :
    (if upper && c.toLower.isLower then c.toLower.toUpper
     else if !upper && c.toLower.isUpper then c.toLower.toLower else c.toLower)
    = (if upper && c.isLower then c.toUpper
       else if !upper && c.isUpper then c.toLower else c) := by
  cases hc : c.isUpper with
  | false => rw [toLower_of_not_upper c hc, hc]; simp
  | true =>
    obtain ⟨n, h1, h2, rfl⟩ := upper_char_cases c hc
    cases upper <;> interval_cases n <;> decide

theorem validHeaderFieldByte_toLower (c : Char) :
    textproto.validHeaderFieldByte c.toLower = textproto.validHeaderFieldByte c := by
  cases hc : c.isUpper with
  | false => rw [toLower_of_not_upper c hc]
  | true =>
    obtain ⟨n, h1, h2, rfl⟩ := upper_char_cases c hc
    interval_cases n <;> decide


theorem canonicalLoop_toLower (upper : Bool) (cs : List Char) :
    textproto.canonicalLoop upper (cs.map Char.toLower) = textproto.canonicalLoop upper cs := by
  induction cs generalizing upper with
  | nil => rfl
  | cons c cs ih =>
    simp only [List.map_cons, textproto.canonicalLoop]
    rw [canonicalStep_toLower, ih]

/-- Header names that differ only in the case of ASCII letters have the same canonical
form. -/
theorem canonical_of_same_lower (a b : String)
    (h : a.data.map Char.toLower = b.data.map Char.toLower) :
    textproto.CanonicalMIMEHeaderKey a = textproto.CanonicalMIMEHeaderKey b
      ∨ (a.data.all textproto.validHeaderFieldByte = false ∧
         b.data.all textproto.validHeaderFieldByte = false) := by
  have hv : ∀ s : List Char, (s.map Char.toLower).all textproto.validHeaderFieldByte
      = s.all textproto.validHeaderFieldByte := by
    intro s
    induction s with
    | nil => rfl
    | cons c cs ih => simp only [List.map_cons, List.all_cons, validHeaderFieldByte_toLower, ih]
  have hab : a.data.all textproto.validHeaderFieldByte
      = b.data.all textproto.validHeaderFieldByte := by
    rw [← hv a.data, ← hv b.data, h]
  cases hb : b.data.all textproto.validHeaderFieldByte with
  | false => right; exact ⟨by rw [hab, hb], rfl⟩
  | true =>
    left
    unfold textproto.CanonicalMIMEHeaderKey
    rw [if_pos (by rw [hab, hb]), if_pos hb, ← canonicalLoop_toLower true a.data,
      ← canonicalLoop_toLower true b.data, h]
theorem foldl_headerSet (l : List (String × String)) (h : List (String × String))
    (name : String) :
    mapGet (l.foldl (fun h e => headerSet h e.1 e.2) h) name
      = match l.reverse.find? (fun e => textproto.CanonicalMIMEHeaderKey e.1 == name) with
        | some e => some e.2
        | none => mapGet h name := by
  induction l generalizing h with
  | nil => rfl
  | cons e l ih =>
    rw [List.foldl_cons, ih, List.reverse_cons, List.find?_append]
    cases l.reverse.find? (fun e => textproto.CanonicalMIMEHeaderKey e.1 == name) with
    | some e' => rfl
    | none =>
      simp only [Option.none_or, mapGet_headerSet, List.find?_cons, List.find?_nil]
      by_cases hk : textproto.CanonicalMIMEHeaderKey e.1 = name
      · have hb : (textproto.CanonicalMIMEHeaderKey e.1 == name) = true := by simpa using hk
        rw [hb, if_pos hk.symm]
      · have hk' : ¬ name = textproto.CanonicalMIMEHeaderKey e.1 := fun x => hk x.symm
        have hb : (textproto.CanonicalMIMEHeaderKey e.1 == name) = false := by simpa using hk
        rw [hb, if_neg hk']

theorem setHeaders_defaults (body : Option String) (name : String) :
    mapGet (if body.isSome
        then headerSet (headerSet (headerSet [] "Accept" "application/json") "User-Agent"
          "oas-mcp/1.0") "Content-Type" "application/json"
        else headerSet (headerSet [] "Accept" "application/json") "User-Agent" "oas-mcp/1.0")
      name = defaultHeader body.isSome name := by
  have h1 : textproto.CanonicalMIMEHeaderKey "Accept" = "Accept" := by decide
  have h2 : textproto.CanonicalMIMEHeaderKey "User-Agent" = "User-Agent" := by decide
  have h3 : textproto.CanonicalMIMEHeaderKey "Content-Type" = "Content-Type" := by decide
  unfold defaultHeader
  cases hb : body.isSome
  · simp only [mapGet_headerSet, h1, h2, Bool.false_eq_true, if_false, and_false]
    by_cases ha : name = "Accept"
    · subst ha; decide
    · by_cases hu : name = "User-Agent"
      · subst hu; decide
      · simp [ha, hu, mapGet]
  · simp only [mapGet_headerSet, h1, h2, h3, if_true, and_true]
    by_cases ha : name = "Accept"
    · subst ha; decide
    · by_cases hu : name = "User-Agent"
      · subst hu; decide
      · by_cases hc : name = "Content-Type"
        · subst hc; decide
        · simp [ha, hu, hc, mapGet]

theorem setHeaders_lookup (ord : RangeOrder) (method url : String) (body : Option String)
    (headers : List (String × String)) (name : String) :
    mapGet (setHeaders ord (newHTTPRequest method url body) headers).Header name
      = match (ord.entries headers).reverse.find?
            (fun e => textproto.CanonicalMIMEHeaderKey e.1 == name) with
        | some e => some e.2
        | none => defaultHeader body.isSome name := by
  unfold setHeaders newHTTPRequest
  simp only [foldl_headerSet]
  rw [setHeaders_defaults body name]

/-- C14: on a new request, for every iteration order of the caller's header map,
`setHeaders` leaves this header set. A name that is the canonical form of no caller
header holds its default: `Accept: application/json` and the fixed `User-Agent` always,
`Content-Type: application/json` iff the request has a body, and nothing otherwise. A
name that is the canonical form of a caller header holds a caller's value, the default
being overwritten. A caller header whose name equals `Accept`, `User-Agent` or
`Content-Type` up to the case of letters has that name as canonical form. -/
theorem setHeaders_header (ord : RangeOrder) (method url : String) (body : Option String)
    (headers : List (String × String)) (name : String) :
    ((∀ e ∈ headers, textproto.CanonicalMIMEHeaderKey e.1 ≠ name) →
      mapGet (setHeaders ord (newHTTPRequest method url body) headers).Header name
        = defaultHeader body.isSome name) ∧
    ((∃ e ∈ headers, textproto.CanonicalMIMEHeaderKey e.1 = name) →
      ∃ e ∈ headers, textproto.CanonicalMIMEHeaderKey e.1 = name ∧
        mapGet (setHeaders ord (newHTTPRequest method url body) headers).Header name
          = some e.2) ∧
    (∀ e ∈ headers, ∀ d ∈ ["Accept", "User-Agent", "Content-Type"],
      e.1.data.map Char.toLower = d.data.map Char.toLower →
      textproto.CanonicalMIMEHeaderKey e.1 = d) ∧
    (setHeaders ord (newHTTPRequest method url body) headers).Body = body := by
  refine ⟨?_, ?_, ?_, rfl⟩
  · intro hnone
    rw [setHeaders_lookup]
    have : (ord.entries headers).reverse.find?
        (fun e => textproto.CanonicalMIMEHeaderKey e.1 == name) = none := by
      rw [List.find?_eq_none]
      intro e he
      have he' : e ∈ headers := (ord.perm headers).mem_iff.1 (List.mem_reverse.1 he)
      simpa using hnone e he'
    rw [this]
  · rintro ⟨e, he, hk⟩
    rw [setHeaders_lookup]
    cases hf : (ord.entries headers).reverse.find?
        (fun e => textproto.CanonicalMIMEHeaderKey e.1 == name) with
    | none =>
      rw [List.find?_eq_none] at hf
      have he' : e ∈ (ord.entries headers).reverse :=
        List.mem_reverse.2 ((ord.perm headers).mem_iff.2 he)
      exact absurd (by simpa using hk) (hf e he')
    | some e' =>
      have hmem := List.mem_of_find?_eq_some hf
      have hp := List.find?_some hf
      exact ⟨e', (ord.perm headers).mem_iff.1 (List.mem_reverse.1 hmem), by simpa using hp, rfl⟩
  · intro e _ d hd hlow
    have hcd : textproto.CanonicalMIMEHeaderKey d = d ∧
        d.data.all textproto.validHeaderFieldByte = true := by
      simp only [List.mem_cons, List.mem_singleton, List.not_mem_nil, or_false] at hd
      rcases hd with rfl | rfl | rfl <;> decide
    rcases canonical_of_same_lower e.1 d hlow with h | h
    · rw [h, hcd.1]
    · rw [hcd.2] at h
      exact absurd h.2 (by decide)

/-- C14 (witness): a request with a body and the caller headers `accept: text/plain`
and `X-Trace: t1`, walked back to front. -/
theorem setHeaders_header_witness :
    mapGet (setHeaders RangeOrder.reversed (newHTTPRequest "POST" "http://api/upload" (some "1"))
        [("accept", "text/plain"), ("X-Trace", "t1")]).Header "Content-Type"
      = some "application/json" ∧
    (∃ e ∈ [("accept", "text/plain"), ("X-Trace", "t1")],
      textproto.CanonicalMIMEHeaderKey e.1 = "Accept" ∧
      mapGet (setHeaders RangeOrder.reversed
          (newHTTPRequest "POST" "http://api/upload" (some "1"))
          [("accept", "text/plain"), ("X-Trace", "t1")]).Header "Accept" = some e.2) ∧
    textproto.CanonicalMIMEHeaderKey "accept" = "Accept" :=
  ⟨(setHeaders_header RangeOrder.reversed "POST" "http://api/upload" (some "1")
      [("accept", "text/plain"), ("X-Trace", "t1")] "Content-Type").1 (by decide),
   (setHeaders_header RangeOrder.reversed "POST" "http://api/upload" (some "1")
      [("accept", "text/plain"), ("X-Trace", "t1")] "Accept").2.1
      ⟨("accept", "text/plain"), by decide, by decide⟩,
   (setHeaders_header RangeOrder.reversed "POST" "http://api/upload" (some "1")
      [("accept", "text/plain"), ("X-Trace", "t1")] "Accept").2.2.1
      ("accept", "text/plain") (by decide) "Accept" (by decide) (by decide)⟩

/-- The header set of the witness, evaluated. -/
theorem setHeaders_example :
    (setHeaders RangeOrder.asWritten (newHTTPRequest "POST" "http://api/upload" (some "1"))
        [("accept", "text/plain"), ("X-Trace", "t1")]).Header
      = [("X-Trace", "t1"), ("Accept", "text/plain"), ("Content-Type", "application/json"),
         ("User-Agent", "oas-mcp/1.0")] := by
  decide

/-! ## The outcome of a tool call -/

theorem executeTool_outcome (env : Env) (tool : Tool) (arguments : List (String × Any)) :
    (∀ err, env.Execute (bindRequest env tool arguments) = .error err →
      (executeTool env tool arguments).1 = .error ("failed to execute request: " ++ err)) ∧
    (∀ response, env.Execute (bindRequest env tool arguments) = .ok response →
      (executeTool env tool arguments).1 = .ok (env.MarshalIndent response)) := by
  constructor
  · intro err h
    simp only [executeTool, h]
  · intro response h
    simp only [executeTool, h]

/-- C15: for a `tools/call` request that names a tool of the catalog (the first tool
of that name is taken): if `executeTool` fails with error text `e`, the response is the
error with code -32603 and message `e` and has no result; if it succeeds with the
formatted text `t`, the response has no error and its result is an object whose only
key `content` holds a list of exactly one block, with `type` equal to "text" and `text`
equal to `t`. The error text of `executeTool` is the requester's error text after the
prefix "failed to execute request: ". -/
theorem handleToolsCall_outcome (env : Env) (s : Server) (request : MCPRequest)
    (params : List (String × Any)) (name : String) (tool : Tool)
    (hparams : request.Params = .map params)
    (hname : mapGet params "name" = some (.string name))
    (htool : s.tools.find? (fun t => t.Name == name) = some tool) :
    (∀ e, (executeTool env tool (argumentsOf params)).1 = .error e →
      (handleToolsCall env s request).1
        = { JSONRPC := "2.0", ID := request.ID, Result := .nil,
            Error := some { Code := -32603, Message := e, Data := .nil } }) ∧
    (∀ t, (executeTool env tool (argumentsOf params)).1 = .ok t →
      (handleToolsCall env s request).1
        = { JSONRPC := "2.0", ID := request.ID,
            Result := .map [("content",
              .slice [.map [("type", .string "text"), ("text", .string t)]])],
            Error := none }) ∧
    (∀ err, env.Execute (bindRequest env tool (argumentsOf params)) = .error err →
      (executeTool env tool (argumentsOf params)).1
        = .error ("failed to execute request: " ++ err)) ∧
    (∀ response, env.Execute (bindRequest env tool (argumentsOf params)) = .ok response →
      (executeTool env tool (argumentsOf params)).1 = .ok (env.MarshalIndent response)) := by
  have hcall : (handleToolsCall env s request).1
      = callResponse request.ID (executeTool env tool (argumentsOf params)).1 := by
    unfold handleToolsCall
    rw [hparams]
    simp only [hname, htool]
  refine ⟨?_, ?_, (executeTool_outcome env tool _).1, (executeTool_outcome env tool _).2⟩
  · intro e he
    rw [hcall, he]
    rfl
  · intro t ht
    rw [hcall, ht]
    rfl

/-- C15 (witness): the pet tool called on the pet server, once with the upstream
unreachable and once with an upstream that answers. -/
theorem handleToolsCall_outcome_witness :
    (handleToolsCall offlineEnv petServer
        { JSONRPC := "2.0", ID := .float64 1, Method := "tools/call",
          Params := .map [("name", .string "get_pets_\x7bid\x7d"),
                          ("arguments", .map [("id", .string "7")])] }).1
      = { JSONRPC := "2.0", ID := .float64 1, Result := .nil,
          Error := some { Code := -32603,
                          Message := "failed to execute request: connection refused",
                          Data := .nil } } ∧
    (handleToolsCall onlineEnv petServer
        { JSONRPC := "2.0", ID := .float64 1, Method := "tools/call",
          Params := .map [("name", .string "get_pets_\x7bid\x7d"),
                          ("arguments", .map [("id", .string "7")])] }).1
      = { JSONRPC := "2.0", ID := .float64 1,
          Result := .map [("content",
            .slice [.map [("type", .string "text"), ("text", .string "ok")]])],
          Error := none } :=
  ⟨(handleToolsCall_outcome offlineEnv petServer
      { JSONRPC := "2.0", ID := .float64 1, Method := "tools/call",
        Params := .map [("name", .string "get_pets_\x7bid\x7d"),
                        ("arguments", .map [("id", .string "7")])] }
      [("name", .string "get_pets_\x7bid\x7d"), ("arguments", .map [("id", .string "7")])]
      "get_pets_\x7bid\x7d" petTool rfl rfl (by decide)).1
      "failed to execute request: connection refused" rfl,
   (handleToolsCall_outcome onlineEnv petServer
      { JSONRPC := "2.0", ID := .float64 1, Method := "tools/call",
        Params := .map [("name", .string "get_pets_\x7bid\x7d"),
                        ("arguments", .map [("id", .string "7")])] }
      [("name", .string "get_pets_\x7bid\x7d"), ("arguments", .map [("id", .string "7")])]
      "get_pets_\x7bid\x7d" petTool rfl rfl (by decide)).2.1 "ok" rfl⟩

/-! ## The serialized tool list -/

/-- The JSON result of `tools/list`, as the code writes it: each tool of the catalog is
an object with exactly the keys `name`, `description`, `inputSchema` and `Operation`,
the last holding the path, the verb, the operation and the resolved identifier of the
OperationInfo the tool points to. -/
theorem handleToolsList_serialized (encodeOperation : Operation → Any) (s : Server)
    (request : MCPRequest) :
    ∃ items : List Any,
      json.encodeResult encodeOperation (handleToolsList s request).Result
        = .map [("tools", if s.tools = [] then .nil else .slice items)] ∧
      items = s.tools.map (json.encodeTool encodeOperation) ∧
      (∀ item ∈ items, item.keys = ["name", "description", "inputSchema", "Operation"]) ∧
      (∀ t ∈ s.tools,
        mapGet (match json.encodeTool encodeOperation t with
                | .map kvs => kvs
                | _ => []) "Operation"
          = some (.map [("Path", .string t.Operation.Path),
                        ("Method", .string t.Operation.Method),
                        ("Operation", encodeOperation t.Operation.Operation),
                        ("OperationID", .string t.Operation.OperationID)])) := by
  refine ⟨s.tools.map (json.encodeTool encodeOperation), rfl, rfl, ?_, ?_⟩
  · intro item hitem
    obtain ⟨t, _, rfl⟩ := List.mem_map.1 hitem
    rfl
  · intro t _
    rfl

/-- C16 (failing input): the serialized pet tool has the key `Operation` besides
`name`, `description` and `inputSchema`, and the path and verb of its operation are
part of the value under that key: the back-reference is sent to callers. -/
theorem handleToolsList_leaks_operation :
    (json.encodeTool (fun _ => Any.nil) petTool).keys ≠ ["name", "description", "inputSchema"] ∧
    "Operation" ∈ (json.encodeTool (fun _ => Any.nil) petTool).keys ∧
    (json.encodeOperationInfo (fun _ => Any.nil) petTool.Operation).keys
      = ["Path", "Method", "Operation", "OperationID"] := by
  decide

/-! ## Parsing a document -/

/-- C17: when the decoder returns a document, `Parse` returns that document iff at
least one of the version markers is non-empty, the title is non-empty, the version is
non-empty and the path map has an entry; it never returns another document; otherwise
it returns an error whose text names the first missing item in the order version,
info.title, info.version, paths. -/
theorem Parse_validation (dec : Decoders) (data filename : String) (spec : OpenAPISpec)
    (hdec : decodeSpec dec data filename = .ok spec) :
    (Parse dec data filename = .ok spec ↔
      (spec.OpenAPI ≠ "" ∨ spec.Swagger ≠ "") ∧ spec.Title ≠ "" ∧ spec.Version ≠ "" ∧
      spec.Paths ≠ []) ∧
    (∀ doc, Parse dec data filename = .ok doc → doc = spec) ∧
    (spec.OpenAPI = "" ∧ spec.Swagger = "" →
      Parse dec data filename
        = .error "invalid OpenAPI specification: missing OpenAPI/Swagger version") ∧
    ((spec.OpenAPI ≠ "" ∨ spec.Swagger ≠ "") → spec.Title = "" →
      Parse dec data filename = .error "invalid OpenAPI specification: missing info.title") ∧
    ((spec.OpenAPI ≠ "" ∨ spec.Swagger ≠ "") → spec.Title ≠ "" → spec.Version = "" →
      Parse dec data filename
        = .error "invalid OpenAPI specification: missing info.version") ∧
    ((spec.OpenAPI ≠ "" ∨ spec.Swagger ≠ "") → spec.Title ≠ "" → spec.Version ≠ "" →
      spec.Paths = [] →
      Parse dec data filename = .error "invalid OpenAPI specification: no paths defined") := by
  have hP : Parse dec data filename
      = match validateSpec spec with
        | .error err => .error ("invalid OpenAPI specification: " ++ err)
        | .ok _ => .ok spec := by
    unfold Parse
    rw [hdec]
  by_cases hv : spec.OpenAPI = "" ∧ spec.Swagger = ""
  · have hval : validateSpec spec = .error "missing OpenAPI/Swagger version" := by
      unfold validateSpec; rw [if_pos hv]
    rw [hP, hval]
    refine ⟨?_, ?_, fun _ => rfl, ?_, ?_, ?_⟩
    · constructor
      · intro h; cases h
      · rintro ⟨h | h, _⟩
        · exact absurd hv.1 h
        · exact absurd hv.2 h
    · intro doc h; cases h
    all_goals
      intro h
      rcases h with h | h
      · exact absurd hv.1 h
      · exact absurd hv.2 h
  · have hv' : spec.OpenAPI ≠ "" ∨ spec.Swagger ≠ "" := by
      by_contra hcon
      push_neg at hcon
      exact hv hcon
    by_cases ht : spec.Title = ""
    · have hval : validateSpec spec = .error "missing info.title" := by
        unfold validateSpec; rw [if_neg hv, if_pos ht]
      rw [hP, hval]
      refine ⟨?_, ?_, fun h => absurd h hv, fun _ _ => rfl, fun _ h => absurd ht h,
        fun _ h => absurd ht h⟩
      · constructor
        · intro h; cases h
        · rintro ⟨_, h, _⟩; exact absurd ht h
      · intro doc h; cases h
    · by_cases hver : spec.Version = ""
      · have hval : validateSpec spec = .error "missing info.version" := by
          unfold validateSpec; rw [if_neg hv, if_neg ht, if_pos hver]
        rw [hP, hval]
        refine ⟨?_, ?_, fun h => absurd h hv, fun _ h => absurd h ht, fun _ _ _ => rfl,
          fun _ _ h => absurd hver h⟩
        · constructor
          · intro h; cases h
          · rintro ⟨_, _, h, _⟩; exact absurd hver h
        · intro doc h; cases h
      · by_cases hpaths : spec.Paths = []
        · have hval : validateSpec spec = .error "no paths defined" := by
            unfold validateSpec; rw [if_neg hv, if_neg ht, if_neg hver, if_pos hpaths]
          rw [hP, hval]
          refine ⟨?_, ?_, fun h => absurd h hv, fun _ h => absurd h ht,
            fun _ _ h => absurd h hver, fun _ _ _ _ => rfl⟩
          · constructor
            · intro h; cases h
            · rintro ⟨_, _, _, h⟩; exact absurd hpaths h
          · intro doc h; cases h
        · have hval : validateSpec spec = .ok () := by
            unfold validateSpec; rw [if_neg hv, if_neg ht, if_neg hver, if_neg hpaths]
          rw [hP, hval]
          refine ⟨?_, ?_, fun h => absurd h hv, fun _ h => absurd h ht,
            fun _ _ h => absurd h hver, fun _ _ _ h => absurd h hpaths⟩
          · exact ⟨fun _ => ⟨hv', ht, hver, hpaths⟩, fun _ => rfl⟩
          · intro doc h
            cases h; rfl

/-- C17 (witness): the pet document is returned as decoded; without its title the
result is the error naming `info.title`. -/
theorem Parse_validation_witness :
    Parse petDecoders "" "pets.yaml" = .ok petDocument ∧
    Parse untitledDecoders "" "pets.yaml"
      = .error "invalid OpenAPI specification: missing info.title" :=
  ⟨(Parse_validation petDecoders "" "pets.yaml" petDocument rfl).1.2
      ⟨Or.inl (by decide), by decide, by decide, by decide⟩,
   (Parse_validation untitledDecoders "" "pets.yaml" { petDocument with Title := "" } rfl).2.2.2.1
      (Or.inl (by decide)) rfl⟩

theorem hasSuffix_toLower_iff (filename suffix : String) :
    strings.HasSuffix (strings.ToLower filename) suffix = true ↔
      ∃ pre suf : List Char, filename.data = pre ++ suf ∧
        suf.map Char.toLower = suffix.data := by
  unfold strings.HasSuffix strings.ToLower
  rw [List.isSuffixOf_iff_suffix]
  constructor
  · rintro ⟨t, ht⟩
    obtain ⟨pre, suf, h1, _, h3⟩ := List.map_eq_append_iff.1 ht.symm
    exact ⟨pre, suf, h1, h3⟩
  · rintro ⟨pre, suf, h1, h2⟩
    exact ⟨pre.map Char.toLower, by simp [h1, h2]⟩

theorem rdropWhile_keeps_head (c : Char) (hc : strings.isSpace c = false)
    (rest : List Char) :
    [c] <+: List.rdropWhile strings.isSpace (c :: rest) := by
  induction rest using List.reverseRecOn with
  | nil =>
    have : List.rdropWhile strings.isSpace [c] = [c] := by
      rw [List.rdropWhile_singleton, hc]; simp
    rw [this]
  | append_singleton l x ih =>
    have e : c :: (l ++ [x]) = (c :: l) ++ [x] := rfl
    rw [e, List.rdropWhile_concat]
    split
    · exact ih
    · exact ⟨l ++ [x], rfl⟩

theorem hasPrefix_trimSpace_iff (data : String) (c : Char) (hc : strings.isSpace c = false) :
    strings.HasPrefix (strings.TrimSpace data) ⟨[c]⟩ = true ↔
      ∃ ws rest : List Char, data.data = ws ++ c :: rest ∧
        ∀ x ∈ ws, strings.isSpace x = true := by
  unfold strings.HasPrefix strings.TrimSpace
  rw [List.isPrefixOf_iff_prefix]
  constructor
  · rintro ⟨t, ht⟩
    have ht' : [c] ++ t
        = List.rdropWhile strings.isSpace (List.dropWhile strings.isSpace data.data) := ht
    obtain ⟨u, hu⟩ := List.rdropWhile_prefix strings.isSpace
      (List.dropWhile strings.isSpace data.data)
    refine ⟨List.takeWhile strings.isSpace data.data, t ++ u, ?_,
      fun x hx => List.mem_takeWhile_imp hx⟩
    have h := List.takeWhile_append_dropWhile strings.isSpace data.data
    rw [← hu, ← ht'] at h
    simpa using h.symm
  · rintro ⟨ws, rest, h1, h2⟩
    have hd : List.dropWhile strings.isSpace data.data = c :: rest := by
      rw [h1, List.dropWhile_append_of_pos h2, List.dropWhile_cons, hc]
      simp
    show [c] <+: List.rdropWhile strings.isSpace (List.dropWhile strings.isSpace data.data)
    rw [hd]
    exact rdropWhile_keeps_head c hc rest

/-- C18: `Parse` decodes the bytes as JSON iff the file name ends in `.json` up to the
case of letters, or the content after leading white space begins with an opening brace;
in every other case it decodes them as YAML. The result then depends on the chosen
decoder alone: its failure is returned as an error, and no document. -/
theorem Parse_format (dec : Decoders) (data filename : String) :
    (isJSON data filename = true ↔
      (∃ pre suf : List Char, filename.data = pre ++ suf ∧
        suf.map Char.toLower = ['.', 'j', 's', 'o', 'n']) ∨
      (∃ ws rest : List Char, data.data = ws ++ '\x7b' :: rest ∧
        ∀ x ∈ ws, strings.isSpace x = true)) ∧
    (isJSON data filename = true →
      (∀ err, dec.jsonUnmarshal data = .error err →
        Parse dec data filename = .error ("failed to parse JSON: " ++ err)) ∧
      (∀ spec, dec.jsonUnmarshal data = .ok spec →
        decodeSpec dec data filename = .ok spec)) ∧
    (isJSON data filename = false →
      (∀ err, dec.yamlUnmarshal data = .error err →
        Parse dec data filename = .error ("failed to parse YAML: " ++ err)) ∧
      (∀ spec, dec.yamlUnmarshal data = .ok spec →
        decodeSpec dec data filename = .ok spec)) := by
  refine ⟨?_, ?_, ?_⟩
  · unfold isJSON
    rw [Bool.or_eq_true, hasSuffix_toLower_iff,
      hasPrefix_trimSpace_iff data '\x7b' (by decide)]
  · intro h
    constructor
    · intro err he
      simp only [Parse, decodeSpec, h, if_true, he]
    · intro spec hs
      simp only [decodeSpec, h, if_true, hs]
  · intro h
    constructor
    · intro err he
      simp [Parse, decodeSpec, h, he]
    · intro spec hs
      simp [decodeSpec, h, hs]

/-- C18 (witness): `API.JSON` with YAML-looking content goes to the JSON decoder,
`api.yaml` with content that starts with a brace after a blank line too, and
`api.yaml` with other content goes to the YAML decoder. -/
theorem Parse_format_witness :
    Parse failingDecoders "openapi: 3.0.0" "API.JSON" = .error "failed to parse JSON: bad json" ∧
    Parse failingDecoders "\n \x7b\x7d" "api.yaml" = .error "failed to parse JSON: bad json" ∧
    Parse failingDecoders "openapi: 3.0.0" "api.yaml"
      = .error "failed to parse YAML: bad yaml" :=
  ⟨((Parse_format failingDecoders "openapi: 3.0.0" "API.JSON").2.1 (by decide)).1
      "bad json" rfl,
   ((Parse_format failingDecoders "\n \x7b\x7d" "api.yaml").2.1 (by decide)).1 "bad json" rfl,
   ((Parse_format failingDecoders "openapi: 3.0.0" "api.yaml").2.2 (by decide)).1
      "bad yaml" rfl⟩

/-! ## The input schema -/

theorem schemaStep_Properties (schema : InputSchema) (p : Parameter) :
    (schemaStep schema p).Properties = mapSet schema.Properties p.Name (parameterProperty p) := by
  unfold schemaStep parameterProperty
  cases hs : p.Schema with
  | none => cases p.Required <;> rfl
  | some sc =>
    by_cases ht : sc.Type_ = ""
    · cases p.Required <;> simp [ht]
    · cases p.Required <;> simp [ht]

theorem schemaStep_Required (schema : InputSchema) (p : Parameter) :
    (schemaStep schema p).Required
      = schema.Required ++ (if p.Required = true then [p.Name] else []) := by
  unfold schemaStep
  cases p.Required <;> simp

theorem schemaStep_Type (schema : InputSchema) (p : Parameter) :
    (schemaStep schema p).Type_ = schema.Type_ := by
  unfold schemaStep
  cases p.Required <;> rfl

theorem foldl_schemaStep_Type (ps : List Parameter) (schema : InputSchema) :
    (ps.foldl schemaStep schema).Type_ = schema.Type_ := by
  induction ps generalizing schema with
  | nil => rfl
  | cons p ps ih => rw [List.foldl_cons, ih, schemaStep_Type]

theorem foldl_schemaStep_Required (ps : List Parameter) (schema : InputSchema) :
    (ps.foldl schemaStep schema).Required
      = schema.Required ++ (ps.filter (fun p => p.Required)).map (fun p => p.Name) := by
  induction ps generalizing schema with
  | nil => simp
  | cons p ps ih =>
    rw [List.foldl_cons, ih, schemaStep_Required, List.filter_cons]
    cases p.Required <;> simp

theorem foldl_schemaStep_Properties (ps : List Parameter) (schema : InputSchema)
    (name : String) :
    mapGet (ps.foldl schemaStep schema).Properties name
      = match ps.reverse.find? (fun p => p.Name == name) with
        | some p => some (parameterProperty p)
        | none => mapGet schema.Properties name := by
  induction ps generalizing schema with
  | nil => rfl
  | cons p ps ih =>
    rw [List.foldl_cons, ih, List.reverse_cons, List.find?_append]
    cases ps.reverse.find? (fun p => p.Name == name) with
    | some q => rfl
    | none =>
      simp only [Option.none_or, schemaStep_Properties, mapGet_mapSet, List.find?_cons,
        List.find?_nil]
      by_cases hk : p.Name = name
      · have hb : (p.Name == name) = true := by simpa using hk
        rw [hb, if_pos hk.symm]
      · have hk' : ¬ name = p.Name := fun x => hk x.symm
        have hb : (p.Name == name) = false := by simpa using hk
        rw [hb, if_neg hk']

theorem generateInputSchema_Properties (op : OperationInfo) (name : String) :
    mapGet (generateInputSchema op).Properties name
      = match op.Operation.RequestBody with
        | some body =>
          if name = "body" then some { Type_ := "object", Description := body.Description }
          else (op.Operation.Parameters.reverse.find? (fun p => p.Name == name)).map
                 parameterProperty
        | none =>
          (op.Operation.Parameters.reverse.find? (fun p => p.Name == name)).map
            parameterProperty := by
  have hfold := foldl_schemaStep_Properties op.Operation.Parameters
    { Type_ := "object", Properties := [], Required := [] } name
  have hfold' : mapGet (op.Operation.Parameters.foldl schemaStep
        { Type_ := "object", Properties := [], Required := [] }).Properties name
      = (op.Operation.Parameters.reverse.find? (fun p => p.Name == name)).map
          parameterProperty := by
    rw [hfold]
    cases op.Operation.Parameters.reverse.find? (fun p => p.Name == name) <;> rfl
  unfold generateInputSchema
  cases op.Operation.RequestBody with
  | none => exact hfold'
  | some body =>
    obtain ⟨description, required⟩ := body
    cases required
    · simp only [Bool.false_eq_true, if_false, mapGet_mapSet]
      by_cases hn : name = "body"
      · rw [if_pos hn, if_pos hn]
      · rw [if_neg hn, if_neg hn]; exact hfold'
    · simp only [if_true, mapGet_mapSet]
      by_cases hn : name = "body"
      · rw [if_pos hn, if_pos hn]
      · rw [if_neg hn, if_neg hn]; exact hfold'

theorem generateInputSchema_Required (op : OperationInfo) :
    (generateInputSchema op).Required
      = (op.Operation.Parameters.filter (fun p => p.Required)).map (fun p => p.Name) ++
        (match op.Operation.RequestBody with
         | some body => if body.Required = true then ["body"] else []
         | none => []) := by
  have hfold := foldl_schemaStep_Required op.Operation.Parameters
    { Type_ := "object", Properties := [], Required := [] }
  unfold generateInputSchema
  cases op.Operation.RequestBody with
  | none => simp [hfold]
  | some body =>
    obtain ⟨description, required⟩ := body
    cases required <;> simp [hfold]

theorem generateInputSchema_Type (op : OperationInfo) :
    (generateInputSchema op).Type_ = "object" := by
  have hfold := foldl_schemaStep_Type op.Operation.Parameters
    { Type_ := "object", Properties := [], Required := [] }
  unfold generateInputSchema
  cases op.Operation.RequestBody with
  | none => exact hfold
  | some body =>
    obtain ⟨description, required⟩ := body
    cases required <;> exact hfold
theorem find?_name_of_nodup (l : List Parameter) (p : Parameter) (hp : p ∈ l)
    (hnd : (l.map (fun q => q.Name)).Nodup) :
    l.find? (fun q => q.Name == p.Name) = some p := by
  induction l with
  | nil => cases hp
  | cons a l ih =>
    rw [List.map_cons, List.nodup_cons] at hnd
    rcases List.mem_cons.1 hp with rfl | hmem
    · simp
    · have hne : a.Name ≠ p.Name := by
        intro e
        exact hnd.1 (e ▸ List.mem_map.2 ⟨p, hmem, rfl⟩)
      have hb : (a.Name == p.Name) = false := by simpa using hne
      rw [List.find?_cons, hb]
      exact ih hmem hnd.2

/-- C19 (amended): `generateInputSchema` returns a schema of type "object". Under a
name other than the `body` of a declared RequestBody, the property is the one of the
last parameter declared with that name: its schema type when a schema with a non-empty
type is present and "string" otherwise, and its description; so when the parameter
names are pairwise distinct every parameter has its own property. When the operation
declares a RequestBody, the property `body` has type "object" and the body's
description, also when a parameter is named `body`; when no parameter is named `body`,
the property `body` exists iff a RequestBody is declared. There are no other
properties. -/
theorem generateInputSchema_properties (op : OperationInfo) (name : String) :
    (generateInputSchema op).Type_ = "object" ∧
    ((op.Operation.RequestBody = none ∨ name ≠ "body") →
      mapGet (generateInputSchema op).Properties name
        = (op.Operation.Parameters.reverse.find? (fun p => p.Name == name)).map
            parameterProperty) ∧
    (∀ p ∈ op.Operation.Parameters,
      (op.Operation.Parameters.map (fun q => q.Name)).Nodup →
      (op.Operation.RequestBody = none ∨ p.Name ≠ "body") →
      mapGet (generateInputSchema op).Properties p.Name = some (parameterProperty p)) ∧
    (∀ body, op.Operation.RequestBody = some body →
      mapGet (generateInputSchema op).Properties "body"
        = some { Type_ := "object", Description := body.Description }) ∧
    ((∀ p ∈ op.Operation.Parameters, p.Name ≠ "body") →
      ((mapGet (generateInputSchema op).Properties "body").isSome
        ↔ op.Operation.RequestBody.isSome)) ∧
    ((mapGet (generateInputSchema op).Properties name).isSome →
      (∃ p ∈ op.Operation.Parameters, p.Name = name) ∨
      (name = "body" ∧ op.Operation.RequestBody.isSome)) := by
  have hlast : ∀ n, (op.Operation.RequestBody = none ∨ n ≠ "body") →
      mapGet (generateInputSchema op).Properties n
        = (op.Operation.Parameters.reverse.find? (fun p => p.Name == n)).map
            parameterProperty := by
    intro n h
    rw [generateInputSchema_Properties]
    cases hb : op.Operation.RequestBody with
    | none => rfl
    | some body =>
      rcases h with h | h
      · rw [hb] at h; cases h
      · simp only [if_neg h]
  have hfind : ∀ n, (op.Operation.Parameters.reverse.find? (fun p => p.Name == n)).isSome →
      ∃ p ∈ op.Operation.Parameters, p.Name = n := by
    intro n h
    obtain ⟨p, hp⟩ := Option.isSome_iff_exists.1 h
    exact ⟨p, List.mem_reverse.1 (List.mem_of_find?_eq_some hp),
      by simpa using List.find?_some hp⟩
  refine ⟨generateInputSchema_Type op, hlast name, ?_, ?_, ?_, ?_⟩
  · intro p hp hnd hbody
    rw [hlast p.Name hbody,
      find?_name_of_nodup op.Operation.Parameters.reverse p (List.mem_reverse.2 hp)
        (by rw [List.map_reverse]; exact List.nodup_reverse.2 hnd)]
    rfl
  · intro body hb
    rw [generateInputSchema_Properties, hb]
    simp only [if_true]
  · intro hno
    cases hb : op.Operation.RequestBody with
    | some body =>
      rw [generateInputSchema_Properties, hb]
      simp
    | none =>
      rw [hlast "body" (Or.inl hb)]
      simp only [Option.isSome_none, Bool.false_eq_true, iff_false]
      intro h
      rw [Option.isSome_map'] at h
      obtain ⟨p, hp, hn⟩ := hfind "body" h
      exact hno p hp hn
  · intro h
    by_cases hcase : op.Operation.RequestBody = none ∨ name ≠ "body"
    · left
      rw [hlast name hcase, Option.isSome_map'] at h
      exact hfind name h
    · right
      push_neg at hcase
      exact ⟨hcase.2, Option.isSome_iff_ne_none.2 hcase.1⟩

/-- C19 (counterexample): `id` is declared as an integer path parameter and again as a
query parameter without schema; the one property `id` has the type "string" and the
description of the second declaration, not the schema type of the first. -/
theorem generateInputSchema_properties_counterexample :
    mapGet (generateInputSchema (itemsEntry twiceDeclaredOperation)).Properties "id"
      = some { Type_ := "string", Description := "query id" } ∧
    mapGet (generateInputSchema (itemsEntry twiceDeclaredOperation)).Properties "id"
      ≠ some { Type_ := "integer", Description := "path id" } := by
  decide

/-- C19 (witness): the pet operation, whose one parameter `id` has no schema. -/
theorem generateInputSchema_properties_witness :
    mapGet (generateInputSchema (itemsEntry petOperation)).Properties "id"
      = some { Type_ := "string", Description := "" } ∧
    ((mapGet (generateInputSchema (itemsEntry petOperation)).Properties "body").isSome
      ↔ petOperation.RequestBody.isSome) :=
  ⟨(generateInputSchema_properties (itemsEntry petOperation) "id").2.2.1
      { Name := "id", In := "path", Description := "", Required := true, Schema := none }
      (by decide) (by decide) (Or.inl rfl),
   (generateInputSchema_properties (itemsEntry petOperation) "id").2.2.2.2.1 (by decide)⟩

/-- C20 (amended): the required list of the schema is the names of the parameters
declared required, in declaration order, followed by `body` when a RequestBody is
present and required; `body` is in the list iff the operation has a RequestBody with
required = true or a required parameter named `body`; every name in the list is a key
of the schema's properties. -/
theorem generateInputSchema_required (op : OperationInfo) :
    (generateInputSchema op).Required
      = (op.Operation.Parameters.filter (fun p => p.Required)).map (fun p => p.Name) ++
        (match op.Operation.RequestBody with
         | some body => if body.Required = true then ["body"] else []
         | none => []) ∧
    ("body" ∈ (generateInputSchema op).Required ↔
      (∃ body, op.Operation.RequestBody = some body ∧ body.Required = true) ∨
      (∃ p ∈ op.Operation.Parameters, p.Required = true ∧ p.Name = "body")) ∧
    (∀ name ∈ (generateInputSchema op).Required,
      (mapGet (generateInputSchema op).Properties name).isSome = true) := by
  refine ⟨generateInputSchema_Required op, ?_, ?_⟩
  · rw [generateInputSchema_Required, List.mem_append, List.mem_map]
    constructor
    · rintro (⟨p, hp, hn⟩ | h)
      · right
        rw [List.mem_filter] at hp
        exact ⟨p, hp.1, hp.2, hn⟩
      · left
        cases hb : op.Operation.RequestBody with
        | none => rw [hb] at h; cases h
        | some body =>
          rw [hb] at h
          by_cases hr : body.Required = true
          · exact ⟨body, rfl, hr⟩
          · simp [hr] at h
    · rintro (⟨body, hb, hr⟩ | ⟨p, hp, hr, hn⟩)
      · right
        rw [hb]
        simp [hr]
      · left
        exact ⟨p, List.mem_filter.2 ⟨hp, hr⟩, hn⟩
  · intro name hname
    rw [generateInputSchema_Required, List.mem_append, List.mem_map] at hname
    rw [generateInputSchema_Properties]
    have hparam : ∀ p ∈ op.Operation.Parameters, p.Name = name →
        ((op.Operation.Parameters.reverse.find? (fun p => p.Name == name)).map
          parameterProperty).isSome = true := by
      intro p hp hn
      rw [Option.isSome_map']
      cases hf : op.Operation.Parameters.reverse.find? (fun p => p.Name == name) with
      | some q => rfl
      | none =>
        rw [List.find?_eq_none] at hf
        exact absurd (by simpa using hn) (hf p (List.mem_reverse.2 hp))
    cases hb : op.Operation.RequestBody with
    | none =>
      rw [hb] at hname
      rcases hname with ⟨p, hp, hn⟩ | h
      · exact hparam p (List.mem_of_mem_filter hp) hn
      · cases h
    | some body =>
      rw [hb] at hname
      by_cases hn : name = "body"
      · simp [hn]
      · simp only [if_neg hn]
        rcases hname with ⟨p, hp, hpn⟩ | h
        · exact hparam p (List.mem_of_mem_filter hp) hpn
        · by_cases hr : body.Required = true
          · simp [hr] at h; exact absurd h hn
          · simp [hr] at h

/-- C20 (counterexample): an operation with a required parameter named `body` and no
RequestBody has `body` in its required list. -/
theorem generateInputSchema_required_counterexample :
    (generateInputSchema (itemsEntry bodyParameterOperation)).Required = ["body"] ∧
    bodyParameterOperation.RequestBody = none ∧
    ¬ ("body" ∈ (generateInputSchema (itemsEntry bodyParameterOperation)).Required ↔
        ∃ body, (itemsEntry bodyParameterOperation).Operation.RequestBody = some body ∧
          body.Required = true) := by
  refine ⟨by decide, rfl, ?_⟩
  intro h
  obtain ⟨body, hb, _⟩ := h.1 (by decide)
  cases hb

/-- C20 (witness): the upload operation, whose RequestBody is required. -/
theorem generateInputSchema_required_witness :
    (generateInputSchema (itemsEntry uploadOperation)).Required = ["body"] ∧
    (mapGet (generateInputSchema (itemsEntry uploadOperation)).Properties "body").isSome
      = true :=
  ⟨(generateInputSchema_required (itemsEntry uploadOperation)).1,
   (generateInputSchema_required (itemsEntry uploadOperation)).2.2 "body" (by decide)⟩

/-! ## Tool descriptions -/

theorem mem_generateTools {ord : MapOrder} {spec : OpenAPISpec} {tool : Tool} :
    tool ∈ generateTools ord spec ↔ ∃ op ∈ GetOperations ord spec, toolOf op = tool := by
  rw [generateTools_eq, List.mem_map]

/-- C21: the description `generateToolDescription` gives an OperationInfo is the
operation's description when that is non-empty, otherwise the operation's summary when
that is non-empty, otherwise the verb, a space and the path of the entry; it is never
empty, in particular not when the path or the verb is non-empty; and every generated
tool carries the description of the entry it points to. -/
theorem generateToolDescription_first_non_empty (op : OperationInfo) (ord : MapOrder)
    (spec : OpenAPISpec) :
    (op.Operation.Description ≠ "" →
      generateToolDescription op = op.Operation.Description) ∧
    (op.Operation.Description = "" → op.Operation.Summary ≠ "" →
      generateToolDescription op = op.Operation.Summary) ∧
    (op.Operation.Description = "" → op.Operation.Summary = "" →
      generateToolDescription op = op.Method ++ " " ++ op.Path) ∧
    ((op.Path ≠ "" ∨ op.Method ≠ "") → generateToolDescription op ≠ "") ∧
    generateToolDescription op ≠ "" ∧
    (∀ tool ∈ generateTools ord spec,
      tool.Description = generateToolDescription tool.Operation) := by
  have hne : generateToolDescription op ≠ "" := by
    unfold generateToolDescription
    by_cases hd : op.Operation.Description = ""
    · by_cases hs : op.Operation.Summary = ""
      · rw [if_neg (not_not.2 hd), if_neg (not_not.2 hs)]
        intro h
        have := congrArg String.length h
        simp [String.length_append] at this
        exact absurd this.1.2 (by decide)
      · rw [if_neg (not_not.2 hd), if_pos hs]; exact hs
    · rw [if_pos hd]; exact hd
  refine ⟨?_, ?_, ?_, fun _ => hne, hne, ?_⟩
  · intro hd
    unfold generateToolDescription
    rw [if_pos hd]
  · intro hd hs
    unfold generateToolDescription
    rw [if_neg (not_not.2 hd), if_pos hs]
  · intro hd hs
    unfold generateToolDescription
    rw [if_neg (not_not.2 hd), if_neg (not_not.2 hs)]
  · intro tool htool
    obtain ⟨entry, _, rfl⟩ := mem_generateTools.1 htool
    rfl

/-- C21 (witness): an entry with a summary and no description, an entry with neither,
and the tool of the pet document. -/
theorem generateToolDescription_first_non_empty_witness :
    generateToolDescription summaryEntry = "List the items" ∧
    generateToolDescription (itemsEntry bareOperation) = "GET /items" ∧
    generateToolDescription (itemsEntry bareOperation) ≠ "" ∧
    petTool.Description = generateToolDescription petTool.Operation :=
  ⟨(generateToolDescription_first_non_empty summaryEntry MapOrder.asWritten petDocument).2.1
      rfl (by decide),
   (generateToolDescription_first_non_empty (itemsEntry bareOperation) MapOrder.asWritten
      petDocument).2.2.1 rfl rfl,
   (generateToolDescription_first_non_empty (itemsEntry bareOperation) MapOrder.asWritten
      petDocument).2.2.2.1 (Or.inl (by decide)),
   (generateToolDescription_first_non_empty (itemsEntry bareOperation) MapOrder.asWritten
      petDocument).2.2.2.2.2 petTool (by decide)⟩

/-! ## The tool list -/

/-- C22: on the server `NewServer` builds from a parsed document, the tool list
`tools/list` returns has as many tools as `GetOperations` returns entries (under the
iteration order of the build, and under any other), and the name of the i-th tool is
the resolved identifier of the i-th entry of the catalog the server was built from; the
result is the same for any two requests, whatever their params, ids and order. -/
theorem handleToolsList_catalog (ord ord' : MapOrder) (dec : Decoders) (file : FileRead)
    (source : String) (spec : OpenAPISpec) (s : Server) (request request' : MCPRequest)
    (hparse : ParseFile dec file source = .ok spec)
    (hs : NewServer ord dec file source = .ok s) :
    (handleToolsList s request).Result = .map [("tools", .tools s.tools)] ∧
    s.tools.length = (GetOperations ord spec).length ∧
    s.tools.length = (GetOperations ord' spec).length ∧
    (∀ i : Nat, (s.tools.map (fun t => t.Name))[i]?
        = ((GetOperations ord spec).map (fun info => info.OperationID))[i]?) ∧
    (∀ i : Nat, (s.tools.map (fun t => t.Operation))[i]? = (GetOperations ord spec)[i]?) ∧
    (handleToolsList s request).Result = (handleToolsList s request').Result ∧
    (handleToolsList s request).Error = none := by
  have hst : s.tools = generateTools ord spec := by
    rw [NewServer_of_parsed ord dec file source spec hparse] at hs
    cases hs
    rfl
  have hlen : s.tools.length = (GetOperations ord spec).length := by
    rw [hst, generateTools_eq, List.length_map]
  refine ⟨rfl, hlen, ?_, ?_, ?_, rfl, rfl⟩
  · rw [hlen]
    exact (GetOperations_perm ord ord' spec).length_eq
  · intro i
    rw [hst, generateTools_names]
  · intro i
    rw [hst, generateTools_eq, List.map_map]
    have : (fun t : Tool => t.Operation) ∘ toolOf = id := rfl
    rw [this, List.map_id]

/-- C22 (witness): the server built from the pet document lists one tool, named by the
identifier of the one catalog entry, for a request without params and for one with. -/
theorem handleToolsList_catalog_witness :
    ParseFile petDecoders (.content "") "pets.yaml" = .ok petDocument ∧
    NewServer MapOrder.asWritten petDecoders (.content "") "pets.yaml" = .ok petServer ∧
    petServer.tools.length = (GetOperations MapOrder.reversed petDocument).length ∧
    (handleToolsList petServer
        { JSONRPC := "2.0", ID := .float64 1, Method := "tools/list", Params := .nil }).Result
      = (handleToolsList petServer
          { JSONRPC := "2.0", ID := .float64 2, Method := "tools/list",
            Params := .map [("cursor", .string "x")] }).Result :=
  ⟨rfl, rfl,
   (handleToolsList_catalog MapOrder.asWritten MapOrder.reversed petDecoders (.content "")
      "pets.yaml" petDocument petServer
      { JSONRPC := "2.0", ID := .float64 1, Method := "tools/list", Params := .nil }
      { JSONRPC := "2.0", ID := .float64 2, Method := "tools/list",
        Params := .map [("cursor", .string "x")] } rfl rfl).2.2.1,
   (handleToolsList_catalog MapOrder.asWritten MapOrder.reversed petDecoders (.content "")
      "pets.yaml" petDocument petServer
      { JSONRPC := "2.0", ID := .float64 1, Method := "tools/list", Params := .nil }
      { JSONRPC := "2.0", ID := .float64 2, Method := "tools/list",
        Params := .map [("cursor", .string "x")] } rfl rfl).2.2.2.2.2.1⟩

/-! ## Collisions of synthesized identifiers -/

theorem append_separator_cancel (x : Char) (a b n m : List Char)
    (ha : x ∉ a) (hb : x ∉ b) (h : a ++ x :: n = b ++ x :: m) : a = b ∧ n = m := by
  induction a generalizing b with
  | nil =>
    cases b with
    | nil => exact ⟨rfl, (List.cons.inj h).2⟩
    | cons y b' =>
      have hxy : x = y := (List.cons.inj h).1
      exact absurd (hxy ▸ List.mem_cons_self _ _) hb
  | cons z a' ih =>
    cases b with
    | nil =>
      have hzx : z = x := (List.cons.inj h).1
      exact absurd (hzx ▸ List.mem_cons_self _ _) ha
    | cons y b' =>
      have hzy : z = y := (List.cons.inj h).1
      have ht : a' ++ x :: n = b' ++ x :: m := (List.cons.inj h).2
      obtain ⟨h1, h2⟩ := ih b' (fun hx => ha (List.mem_cons_of_mem _ hx))
        (fun hx => hb (List.mem_cons_of_mem _ hx)) ht
      exact ⟨by rw [hzy, h1], h2⟩

theorem verbs_lower_no_underscore :
    ∀ v ∈ verbs, '_' ∉ (strings.ToLower v).data := by
  decide

theorem verbs_lower_injective :
    ∀ v ∈ verbs, ∀ w ∈ verbs, strings.ToLower v = strings.ToLower w → v = w := by
  decide

theorem synthesizedID_data (method path : String) :
    (synthesizedID method path).data
      = (strings.ToLower method).data ++ '_' :: (normalizedPath path).data := by
  unfold synthesizedID normalizedPath
  simp only [String.data_append]
  rw [List.append_assoc]
  rfl

/-- C23: for an operation without `operationId` the identifier of its catalog entry is
`synthesizedID` of the entry's verb and path, whatever else the operation holds and
whatever the iteration order; and for two (path, verb) pairs with verbs among the eight
fixed verbs the synthesized names are equal iff the verbs are equal and the normalized
paths are equal, the normalized path being the core of the path between its leading and
trailing slashes with every slash turned into an underscore. So pairs whose normalized
forms differ never collide. -/
theorem synthesizedID_collision (ord : MapOrder) (path : String) (pathItem : PathItem)
    (verb verb' : String) (path' : String) (hv : verb ∈ verbs) (hv' : verb' ∈ verbs) :
    (∀ info ∈ extractOperations ord path pathItem, info.Operation.OperationID = "" →
      info.OperationID = synthesizedID info.Method info.Path) ∧
    (synthesizedID verb path = synthesizedID verb' path' ↔
      verb = verb' ∧ normalizedPath path = normalizedPath path') ∧
    ((verb ≠ verb' ∨ normalizedPath path ≠ normalizedPath path') →
      synthesizedID verb path ≠ synthesizedID verb' path') ∧
    (∃ (a b : Nat) (t : List Char),
      path.data = List.replicate a '/' ++ t ++ List.replicate b '/' ∧
      t.head? ≠ some '/' ∧ t.getLast? ≠ some '/' ∧
      normalizedPath path = String.mk (t.map (fun c => if c = '/' then '_' else c))) := by
  have hiff : synthesizedID verb path = synthesizedID verb' path' ↔
      verb = verb' ∧ normalizedPath path = normalizedPath path' := by
    constructor
    · intro h
      have hd := congrArg String.data h
      rw [synthesizedID_data, synthesizedID_data] at hd
      obtain ⟨h1, h2⟩ := append_separator_cancel '_' _ _ _ _
        (verbs_lower_no_underscore verb hv) (verbs_lower_no_underscore verb' hv') hd
      exact ⟨verbs_lower_injective verb hv verb' hv' (String.ext h1), String.ext h2⟩
    · rintro ⟨h1, h2⟩
      apply String.ext
      rw [synthesizedID_data, synthesizedID_data, h1, h2]
  refine ⟨?_, hiff, ?_, ?_⟩
  · intro info hinfo hid
    obtain ⟨⟨method, slot⟩, _, he⟩ := mem_extractOperations.1 hinfo
    cases slot with
    | none => simp [infoOf] at he
    | some operation =>
      simp only [infoOf, Option.map_some', Option.some.injEq] at he
      subst he
      have hid' : operation.OperationID = "" := hid
      simp only [hid', if_true]
  · intro hne heq
    obtain ⟨h1, h2⟩ := hiff.1 heq
    rcases hne with h | h
    · exact h h1
    · exact h h2
  · obtain ⟨a, b, t, h1, h2, h3, h4⟩ := synthesizedID_spec verb path
    refine ⟨a, b, t, h1, h2, h3, ?_⟩
    have hd := congrArg String.data h4
    rw [synthesizedID_data] at hd
    simp only [String.data_append] at hd
    rw [List.append_assoc] at hd
    exact String.ext (List.cons.inj (List.append_cancel_left hd)).2

/-- C23 (witness): `GET /a/b` and `GET /a_b` have the same normalized path and the same
name; `GET /pets` and `POST /pets` differ in the verb and in the name. -/
theorem synthesizedID_collision_witness :
    synthesizedID "GET" "/a/b" = synthesizedID "GET" "/a_b" ∧
    synthesizedID "GET" "/pets" ≠ synthesizedID "POST" "/pets" :=
  ⟨(synthesizedID_collision MapOrder.asWritten "/a/b" emptyPathItem "GET" "GET" "/a_b"
      (by decide) (by decide)).2.1.2 ⟨rfl, by decide⟩,
   (synthesizedID_collision MapOrder.asWritten "/pets" emptyPathItem "GET" "POST" "/pets"
      (by decide) (by decide)).2.2.1 (Or.inl (by decide))⟩

end OasMcp
